import Mathlib

/-!
The simp-console client (`src/simp-client.c`).

A shallow embedding of the sender (`output_handler`) and of the receiver
(`read_buffer`, the `read_*` decoders, `input_handler`).

Conventions.
* A byte is a `Nat`; a byte string is a `List Nat`.
* A C string in memory is represented by the bytes stored before its
  terminator; `strlen` stops at the first zero byte.
* `gsize` is 64 bits wide: arithmetic on it is taken modulo `2 ^ 64`.
* `g_debug` lines are not part of the model.
-/

namespace Simp

/-! ## Constants -/

def UNKNOWN : Int := -1

def RESPONSE_ERROR : Int := 0
def RESPONSE_CONNECT_SUCCESSFULLY : Int := 1
def RESPONSE_USER_CONNECTED : Int := 2
def RESPONSE_USER_DISCONNECTED : Int := 3
def RESPONSE_MESSAGE : Int := 4

def ERROR_USER_ALREADY_EXISTS : Int := 1
def ERROR_SERVER_UNAVAILABLE : Int := 0

/-! ## C strings and libc -/

/-- The bytes of the C string that starts a memory area: everything before
the first zero byte. -/
def cstr (mem : List Nat) : List Nat := mem.takeWhile (fun b => b != 0)

/-- The libc `strlen`. -/
def strlen (mem : List Nat) : Nat := (cstr mem).length

/-- Conversion of a value to `guint8`. -/
def guint8_of (n : Nat) : Nat := n % 256

/-- Conversion of a byte to `gint8` (two's complement). -/
def gint8_of (n : Nat) : Int := if n % 256 < 128 then (n % 256 : Nat) else ((n % 256 : Nat) : Int) - 256

/-- The reading loop of libc `fgets`: at most `k` bytes are taken, and
reading stops after a newline or at the end of the input. The result is
the bytes stored and the input left. -/
def fgets_aux : Nat → List Nat → List Nat × List Nat
  | 0, rest => ([], rest)
  | _ + 1, [] => ([], [])
  | k + 1, c :: rest =>
    if c = 10 then ([c], rest)
    else ((c :: (fgets_aux k rest).1), (fgets_aux k rest).2)

/-- The libc `fgets(buffer, size, stdin)`: `none` is the `NULL` result at
end of input, otherwise the bytes stored in the buffer (before the
terminator) and the input left. -/
def fgets (size : Nat) (stdin : List Nat) : Option (List Nat × List Nat) :=
  match stdin with
  | [] => none
  | _ :: _ => some (fgets_aux (size - 1) stdin)

/-! ## Frames built by `output_handler` -/

/-- Lines 49-52 of `output_handler`: the three header bytes, with the type
byte `ty` (0 at line 51, 2 after line 89). -/
def connect_header (ty : Nat) (username : List Nat) : List Nat :=
  [1, ty, guint8_of (strlen username)]

/-- Lines 49-59 of `output_handler`: the bytes of the first frame. -/
def connect_frame (username : List Nat) : List Nat :=
  connect_header 0 username ++ (cstr username)

/-- Lines 78-83 of `output_handler`: the four bytes of the length. -/
def message_header (n : Nat) : List Nat :=
  [n >>> 24 &&& 0xFF, n >>> 16 &&& 0xFF, n >>> 8 &&& 0xFF, n &&& 0xFF]

/-- Lines 78-92 of `output_handler`: the frame built from the line stored
in `buffer`, by prepending to the text its length, the username and the
header. -/
def message_frame (username buffer : List Nat) : List Nat :=
  connect_header 2 username ++ ((cstr username).take (strlen username) ++
    (message_header (strlen buffer) ++ cstr buffer))

/-! ## Diagnostics -/

/-- An argument of a `printf`-style call: a terminated C string, a heap
block of exactly the given bytes (no terminator stored), or an `int`. -/
inductive Arg where
  | str (s : List Nat)
  | buf (b : List Nat)
  | int (v : Int)
  deriving DecidableEq, Repr

/-- The bytes of a string literal of the source. -/
def lit (s : String) : List Nat := s.data.map Char.toNat

/-- The text printed for one argument: `%s` prints a C string up to its
terminator, `%d` prints a decimal number. A heap block without a zero byte
has no terminator inside the allocation, and what is printed for it is not
defined (`none`). -/
def render_arg : Arg → Option (List Nat)
  | .str s => some (cstr s)
  | .buf b => if b.all (fun c => c != 0) then none else some (cstr b)
  | .int v => some (lit (toString v))

/-- Substitution of the arguments into a format, given as the literal
pieces around the conversions: `pieces[0] arg[0] pieces[1] arg[1] ...`. -/
def render : List String → List Arg → Option (List Nat)
  | [], _ => some []
  | p :: ps, [] => (render ps []).map (fun r => lit p ++ r)
  | p :: ps, a :: as =>
    match render_arg a, render ps as with
    | some x, some r => some (lit p ++ (x ++ r))
    | _, _ => none

/-! ## The sender: `output_handler` -/

/-- The result of one `g_output_stream_write_bytes` call: the number of
bytes accepted, or `-1` with `G_IO_ERROR_WOULD_BLOCK`, or `-1` with another
error and its message. -/
inductive WriteResult where
  | ok (n : Nat)
  | would_block
  | failed (msg : List Nat)
  deriving DecidableEq, Repr

/-- What a handler does, in program order. -/
inductive Ev where
  | fgets (r : Option (List Nat))
  | write (offered : List Nat) (r : WriteResult)
  | read (requested : Nat) (size : Int)
  | stdout (pieces : List String) (args : List Arg)
  | stderr (pieces : List String) (args : List Arg)
  | cancel
  deriving DecidableEq, Repr

/-- The `gsize` subtraction `to_send -= size`, modulo `2 ^ 64`. -/
def gsize_sub (a : Nat) (b : Int) : Nat := (((a : Int) - b) % (2 : Int) ^ 64).toNat

/-- How the write loop of lines 96-121 ends. -/
inductive WriteExit where
  /-- The condition `to_send > 0` became false. -/
  | done (conn : List WriteResult) (trace : List Ev)
  /-- A `return NULL` from inside the loop, after `g_cancellable_cancel`. -/
  | fatal (conn : List WriteResult) (trace : List Ev)
  /-- A write call is waiting for the connection: its scripted results are used up. -/
  | pending (trace : List Ev)
  deriving DecidableEq, Repr

/-- Lines 96-121: every call passes `bytes` itself to
`g_output_stream_write_bytes`; `conn` holds the results the connection gives
to the successive calls. -/
def write_loop (bytes : List Nat) : List WriteResult → Nat → List Ev → WriteExit
  | conn, 0, trace => .done conn trace
  | [], _ + 1, trace => .pending trace
  | r :: conn, to_send + 1, trace =>
    match r with
    | .would_block => write_loop bytes conn (to_send + 1) (trace ++ [.write bytes r])
    | .failed msg =>
      .fatal conn (trace ++ [.write bytes r,
        .stderr ["Error sending to socket: ", "\n"] [.str msg], .cancel])
    | .ok n =>
      if n = 0 then
        .fatal conn (trace ++ [.write bytes r, .stderr ["Unexpected short write\n"] [], .cancel])
      else write_loop bytes conn (gsize_sub (to_send + 1) n) (trace ++ [.write bytes r])

/-- Whether `output_handler` has returned. -/
inductive Status where
  | returned
  | running
  deriving DecidableEq, Repr

/-- The observable state of a run of the sender. -/
structure Run where
  status : Status
  stdin : List Nat
  conn : List WriteResult
  trace : List Ev
  cancelled : Bool
  deriving DecidableEq, Repr

/-- Lines 65-123, the `while (TRUE)` loop, with `fuel` iterations at most. -/
def output_loop (username : List Nat) :
    Nat → Nat → List Nat → List Nat → List WriteResult → List Ev → Bool → Run
  | 0, _, _, stdin, conn, trace, cancelled => ⟨.running, stdin, conn, trace, cancelled⟩
  | fuel + 1, to_send, bytes, stdin, conn, trace, cancelled =>
    if to_send = 0 then
      match fgets 4096 stdin with
      | none => ⟨.returned, [], conn, trace ++ [.fgets none, .cancel], true⟩
      | some (buffer, stdin1) =>
        if cstr buffer = [10] then
          ⟨.returned, stdin1, conn, trace ++ [.fgets (some buffer), .cancel], true⟩
        else
          match write_loop (message_frame username buffer) conn
              (message_frame username buffer).length (trace ++ [.fgets (some buffer)]) with
          | .done conn1 trace1 =>
            output_loop username fuel 0 (message_frame username buffer) stdin1 conn1 trace1 cancelled
          | .fatal conn1 trace1 => ⟨.returned, stdin1, conn1, trace1, true⟩
          | .pending trace1 => ⟨.running, stdin1, [], trace1, cancelled⟩
    else
      match write_loop bytes conn to_send trace with
      | .done conn1 trace1 => output_loop username fuel 0 bytes stdin conn1 trace1 cancelled
      | .fatal conn1 trace1 => ⟨.returned, stdin, conn1, trace1, true⟩
      | .pending trace1 => ⟨.running, stdin, [], trace1, cancelled⟩

/-- The function `output_handler`: the connect frame is built, then the loop
runs. Every iteration but the first reads at least one byte of `stdin` or
leaves the loop, so `stdin.length + 2` iterations are enough. -/
def output_handler (username stdin : List Nat) (conn : List WriteResult) (cancelled : Bool) : Run :=
  output_loop username (stdin.length + 2) (connect_frame username).length (connect_frame username)
    stdin conn [] cancelled

/-! ## The receiver: `read_buffer`, the decoders, `input_handler` -/

/-- The input half of the connection and what the receiver has done so far.
The bytes arrive in `chunks`; a read call returns bytes of the first chunk
only, so that every way of splitting the stream over the read calls is
some choice of chunks. After the last chunk the stream is at end of input
(`error = none`) or fails with the given message. -/
structure Recv where
  chunks : List (List Nat)
  error : Option (List Nat)
  trace : List Ev
  cancelled : Bool
  deriving DecidableEq, Repr

/-- The bytes still to come. -/
def Recv.pending (s : Recv) : List Nat := s.chunks.flatten

/-- The call `g_input_stream_read(istream, buff, n, ...)` on the chunks
left: the size returned, the chunks left afterwards, and the buffer, whose
first bytes are overwritten by the bytes read. A call with `n = 0` returns
0 and does nothing. -/
def g_input_stream_read (error : Option (List Nat)) :
    List (List Nat) → List Nat → Nat → Int × List (List Nat) × List Nat
  | chunks, buff, 0 => (0, chunks, buff)
  | [], buff, _ + 1 => (if error.isSome then -1 else 0, [], buff)
  | [] :: cs, buff, n + 1 => g_input_stream_read error cs buff (n + 1)
  | (c :: cr) :: cs, buff, n + 1 =>
    (((c :: cr).take (n + 1)).length,
     if (c :: cr).drop (n + 1) = [] then cs else (c :: cr).drop (n + 1) :: cs,
     (c :: cr).take (n + 1) ++ buff.drop ((c :: cr).take (n + 1)).length)

/-- Lines 134-147 of `read_buffer`, with `fuel` evaluations of the loop
condition at most: `size` holds the result of the last read call, the
next call asks for `count - size` bytes and stores them at the start of
`buff`. -/
def read_buffer_loop (count : Nat) : Nat → Recv → List Nat → Int → Option (Int × List Nat × Recv)
  | 0, _, _, _ => none
  | fuel + 1, s, buff, size =>
    if size ≠ (count : Int) then
      match g_input_stream_read s.error s.chunks buff ((count : Int) - size).toNat with
      | (size1, chunks1, buff1) =>
        if size1 < 0 then
          some (size1, buff1, { s with chunks := chunks1, trace := s.trace ++
            [.read ((count : Int) - size).toNat size1,
             .stderr ["Error receiving from socket: ", "\n"] [.str (s.error.getD [])]] })
        else if size1 = 0 then
          some (size1, buff1, { s with chunks := chunks1, trace := s.trace ++
            [.read ((count : Int) - size).toNat size1, .stderr ["Socket closed\n"] []] })
        else
          read_buffer_loop count fuel
            { s with chunks := chunks1, trace := s.trace ++ [.read ((count : Int) - size).toNat size1] }
            buff1 size1
    else some (size, buff, s)

/-- The function `read_buffer`: the size returned and the buffer. Every read
call but the last takes at least one byte of the stream, so
`pending.length + 1` evaluations of the loop condition are enough. -/
def read_buffer (s : Recv) (buff : List Nat) (count : Nat) : Option (Int × List Nat × Recv) :=
  read_buffer_loop count (s.pending.length + 1) s buff 0

/-- Append one event to the trace. -/
def Recv.log (s : Recv) (e : Ev) : Recv := { s with trace := s.trace ++ [e] }

/-- The function `read_response_type`. The array `header` is not
initialised in the source; its bytes are looked at only after `read_buffer`
has returned a positive size. -/
def read_response_type (s : Recv) : Option (Int × Recv) :=
  match read_buffer s [0, 0] 2 with
  | none => none
  | some (size, header, s1) =>
    if size ≤ 0 then some (UNKNOWN, s1)
    else if header.getD 0 0 ≠ 1 then
      some (UNKNOWN, s1.log (.stderr ["Unsupported protocol version: ", "\n"] [.int (header.getD 0 0)]))
    else if header.getD 1 0 > 4 ∨ ((header.getD 1 0 : Nat) : Int) < 0 then
      some (UNKNOWN, s1.log (.stderr ["Unsupported response type: ", "\n"] [.int (header.getD 1 0)]))
    else some (gint8_of (header.getD 1 0), s1)

/-- The GLib `g_new0(gchar, n)`: a block of `n` zero bytes, and `NULL`
(`none`) when `n = 0`. -/
def g_new0 (n : Nat) : Option (List Nat) := if n = 0 then none else some (List.replicate n 0)

/-- Lines 180-186, 197-203 and 219-225: a block of `n` bytes is allocated
and filled by `read_buffer`; `NULL` (`none`) is returned when the size
returned is not positive. -/
def read_block (s : Recv) (n : Nat) : Option (Option (List Nat) × Recv) :=
  match read_buffer s ((g_new0 n).getD []) n with
  | none => none
  | some (size, buff, s1) =>
    if size ≤ 0 then some (none, s1) else some ((g_new0 n).map (fun _ => buff), s1)

/-- The function `read_connected_successfully`. -/
def read_connected_successfully (s : Recv) : Option (Option (List Nat) × Recv) :=
  match read_buffer s [0, 0] 2 with
  | none => none
  | some (size, ul_size_buff, s1) =>
    if size ≤ 0 then some (none, s1)
    else read_block s1
      ((((ul_size_buff.getD 0 0 &&& 0xFF) <<< 8) ||| (ul_size_buff.getD 1 0 &&& 0xFF)) % 2 ^ 16)

/-- The function `read_user`. -/
def read_user (s : Recv) : Option (Option (List Nat) × Recv) :=
  match read_buffer s [0] 1 with
  | none => none
  | some (size, u_size_buff, s1) =>
    if size ≤ 0 then some (none, s1) else read_block s1 (u_size_buff.getD 0 0)

/-- The function `read_message`; `m_size` is a 32-bit `guint`. -/
def read_message (s : Recv) : Option (Option (List Nat) × Recv) :=
  match read_buffer s [0, 0, 0, 0] 4 with
  | none => none
  | some (size, m_size_buf, s1) =>
    if size ≤ 0 then some (none, s1)
    else read_block s1
      ((((m_size_buf.getD 0 0 &&& 0xFF) <<< 24) ||| ((m_size_buf.getD 1 0 &&& 0xFF) <<< 16) |||
        ((m_size_buf.getD 2 0 &&& 0xFF) <<< 8) ||| (m_size_buf.getD 3 0 &&& 0xFF)) % 2 ^ 32)

/-- The function `read_error`: the byte read is returned as a `gint8`. -/
def read_error (s : Recv) : Option (Int × Recv) :=
  match read_buffer s [0] 1 with
  | none => none
  | some (size, e_buff, s1) =>
    if size ≤ 0 then some (UNKNOWN, s1) else some (gint8_of (e_buff.getD 0 0), s1)

/-- Lines 278-285 of `input_handler`: the diagnostic for an error code. -/
def error_diagnostic (username : List Nat) (error_code : Int) : Ev :=
  if error_code = ERROR_USER_ALREADY_EXISTS then
    .stderr ["SERVER: User ", " is already connected\n"] [.str username]
  else if error_code = ERROR_SERVER_UNAVAILABLE then
    .stderr ["SERVER: Server unavailable\n"] []
  else .stderr ["Unsupported error code: ", "\n"] [.int error_code]

/-- Lines 246-288 of `input_handler`, the `while (TRUE)` loop with `fuel`
iterations at most: the state when the loop is left. -/
def input_loop (username : List Nat) : Nat → Recv → Option Recv
  | 0, _ => none
  | fuel + 1, s =>
    match read_response_type s with
    | none => none
    | some (response_type, s1) =>
      if response_type = UNKNOWN then some s1
      else if response_type = RESPONSE_CONNECT_SUCCESSFULLY then
        match read_connected_successfully s1 with
        | none => none
        | some (none, s2) => some s2
        | some (some users_list, s2) =>
          input_loop username fuel (s2.log (.stdout ["SERVER: Online users: ", "\n"] [.buf users_list]))
      else if response_type = RESPONSE_USER_CONNECTED ∨ response_type = RESPONSE_USER_DISCONNECTED then
        match read_user s1 with
        | none => none
        | some (none, s2) => some s2
        | some (some user, s2) =>
          if response_type = RESPONSE_USER_CONNECTED then
            input_loop username fuel (s2.log (.stdout ["SERVER: Connected user: ", "\n"] [.buf user]))
          else
            input_loop username fuel (s2.log (.stdout ["SERVER: Disconnected user: ", "\n"] [.buf user]))
      else if response_type = RESPONSE_MESSAGE then
        match read_user s1 with
        | none => none
        | some (none, s2) => some s2
        | some (some user, s2) =>
          match read_message s2 with
          | none => none
          | some (none, s3) => some s3
          | some (some message, s3) =>
            input_loop username fuel (s3.log (.stdout ["[", "] ", "\n"] [.buf user, .buf message]))
      else if response_type = RESPONSE_ERROR then
        match read_error s1 with
        | none => none
        | some (error_code, s2) => some (s2.log (error_diagnostic username error_code))
      else input_loop username fuel s1

/-- The function `input_handler` on the chunks to come: every iteration of
the loop but the last reads at least one byte, so `pending.length + 1`
iterations are enough. After the loop the prompt is printed and the
cancellation token is set. -/
def input_handler (username : List Nat) (chunks : List (List Nat)) (error : Option (List Nat))
    (cancelled : Bool) : Option Recv :=
  match input_loop username (chunks.flatten.length + 1) ⟨chunks, error, [], cancelled⟩ with
  | none => none
  | some s =>
    some { s with trace := s.trace ++ [.stderr ["Print any key to exit..."] [], .cancel],
                  cancelled := true }

/-! ## Bytes on the wire -/

/-- The bytes the connection has accepted in one event. -/
def Ev.accepted : Ev → List Nat
  | .write offered (.ok n) => offered.take n
  | _ => []

/-- The bytes the connection has accepted over a trace, in order. -/
def wire (trace : List Ev) : List Nat := (trace.map Ev.accepted).flatten

/-- The trace at the end of the write loop. -/
def WriteExit.trace : WriteExit → List Ev
  | .done _ t => t
  | .fatal _ t => t
  | .pending t => t

/-! ## Input lines -/

/-- A line of text as the theorems on the sender take it: it ends in its
newline, has at least one byte before it, fits the buffer of `fgets`
(4095 bytes at most), and has no zero byte and no other newline. -/
def is_line (l : List Nat) : Prop :=
  l.getLast? = some 10 ∧ 2 ≤ l.length ∧ l.length ≤ 4095 ∧ ∀ b ∈ l.dropLast, b ≠ 0 ∧ b ≠ 10

instance (l : List Nat) : Decidable (is_line l) := by
  unfold is_line
  infer_instance

/-- The events of a line that is read and whose frame the connection accepts
in one write call. -/
def line_events (username line : List Nat) : List Ev :=
  [.fgets (some line),
   .write (message_frame username line) (.ok (message_frame username line).length)]

/-- The connection accepts the frame of a line in one write call. -/
def line_accept (username line : List Nat) : WriteResult :=
  .ok (message_frame username line).length

/-! ## Observations on traces -/

/-- The `g_printf` calls of a trace: the events rendered on the normal
output. -/
def stdouts (trace : List Ev) : List Ev :=
  trace.filter (fun e => match e with
    | .stdout _ _ => true
    | _ => false)

/-- The read calls of a trace. -/
def reads (trace : List Ev) : List Ev :=
  trace.filter (fun e => match e with
    | .read _ _ => true
    | _ => false)

/-- The state `t` follows the state `s` of the receiver after some reads:
the end of the stream and the token are the same, nothing has been rendered
on the normal output, and no byte has come back. -/
def Recv.quiet (s t : Recv) : Prop :=
  t.error = s.error ∧ t.cancelled = s.cancelled ∧ stdouts t.trace = stdouts s.trace ∧
    t.pending.length ≤ s.pending.length

/-- The chunks left when a read call has taken the start of the first chunk
and `rest` is what remains of that chunk. -/
def rest_chunks (rest : List Nat) (cs : List (List Nat)) : List (List Nat) :=
  if rest = [] then cs else rest :: cs

/-! ## Fatal write results -/

/-- A write result that ends the sender: a successful write of 0 bytes, or an
error other than would-block. -/
def is_fatal : WriteResult → Bool
  | .ok n => n == 0
  | .would_block => false
  | .failed _ => true

/-- The diagnostic of lines 105 and 115 for a fatal write result. -/
def fatal_diagnostic : WriteResult → Ev
  | .failed msg => .stderr ["Error sending to socket: ", "\n"] [.str msg]
  | _ => .stderr ["Unexpected short write\n"] []

/-- The `g_fprintf(stderr, ...)` calls of a trace: the diagnostics and the
prompt. -/
def stderrs (trace : List Ev) : List Ev :=
  trace.filter (fun e => match e with
    | .stderr _ _ => true
    | _ => false)

/-! ## The username -/

/-- Lines 312-315 and 338 of `main`: the username handed to both handlers is
the second argument, when there are exactly two arguments after the program
name (the address is taken to parse and the connection to succeed); its
length is not looked at. -/
def main_username (argv : List (List Nat)) : Option (List Nat) :=
  if argv.length ≠ 3 then none else some (cstr (argv.getD 2 []))

/-- The length byte of a frame offered to the connection is the number of
username bytes, and these bytes follow it. -/
def length_field_ok (username : List Nat) : Ev → Prop
  | .write frame _ =>
    frame.getD 2 0 = username.length ∧ (frame.drop 3).take username.length = username
  | _ => True

instance (username : List Nat) (e : Ev) : Decidable (length_field_ok username e) := by
  cases e <;> unfold length_field_ok <;> infer_instance

/-! ## Response frames on the wire -/

/-- The response frames that are rendered on the normal output, with their
fields: the types 1 to 4 of the wire format. -/
inductive Frame where
  | connected_successfully (list : List Nat)
  | user_connected (user : List Nat)
  | user_disconnected (user : List Nat)
  | message (user text : List Nat)
  deriving DecidableEq, Repr

/-- The bytes of a response frame in the wire format of the spec: version
1, type, then the fields, each after its length (1 byte for a username, 2
bytes big-endian for the list, 4 bytes big-endian for a text). -/
def Frame.encode : Frame → List Nat
  | .connected_successfully list =>
    [1, 1] ++ [list.length / 2 ^ 8 % 256, list.length % 256] ++ list
  | .user_connected user => [1, 2] ++ [user.length] ++ user
  | .user_disconnected user => [1, 3] ++ [user.length] ++ user
  | .message user text =>
    [1, 4] ++ [user.length] ++ user ++
      [text.length / 2 ^ 24 % 256, text.length / 2 ^ 16 % 256, text.length / 2 ^ 8 % 256,
        text.length % 256] ++ text

/-- The fields of the frame are not empty and their lengths fit the length
prefixes. -/
def Frame.well_formed : Frame → Prop
  | .connected_successfully list => list ≠ [] ∧ list.length < 2 ^ 16
  | .user_connected user => user ≠ [] ∧ user.length < 2 ^ 8
  | .user_disconnected user => user ≠ [] ∧ user.length < 2 ^ 8
  | .message user text => user ≠ [] ∧ user.length < 2 ^ 8 ∧ text ≠ [] ∧ text.length < 2 ^ 32

instance (f : Frame) : Decidable f.well_formed := by
  cases f <;> unfold Frame.well_formed <;> infer_instance

/-- The `g_printf` call of `input_handler` for a frame: the format of its
type and the buffers of its fields. -/
def Frame.event : Frame → Ev
  | .connected_successfully list => .stdout ["SERVER: Online users: ", "\n"] [.buf list]
  | .user_connected user => .stdout ["SERVER: Connected user: ", "\n"] [.buf user]
  | .user_disconnected user => .stdout ["SERVER: Disconnected user: ", "\n"] [.buf user]
  | .message user text => .stdout ["[", "] ", "\n"] [.buf user, .buf text]

/-- The read calls that take the bytes of a frame, each returning all the
bytes asked: the header, then every length prefix and every field. -/
def Frame.read_events : Frame → List Ev
  | .connected_successfully list => [.read 2 2, .read 2 2, .read list.length list.length]
  | .user_connected user => [.read 2 2, .read 1 1, .read user.length user.length]
  | .user_disconnected user => [.read 2 2, .read 1 1, .read user.length user.length]
  | .message user text =>
    [.read 2 2, .read 1 1, .read user.length user.length, .read 4 4,
      .read text.length text.length]

/-! ## Lemmas on C strings and on the header arithmetic -/

theorem cstr_eq_self (l : List Nat) (h : ∀ b ∈ l, b ≠ 0) : cstr l = l := by
  unfold cstr
  rw [List.takeWhile_eq_self_iff]
  intro b hb
  simpa using h b hb

theorem strlen_eq_length (l : List Nat) (h : ∀ b ∈ l, b ≠ 0) : strlen l = l.length := by
  unfold strlen
  rw [cstr_eq_self l h]

theorem and_ff (n : Nat) : n &&& 0xFF = n % 256 :=
  Nat.and_pow_two_sub_one_eq_mod n 8

theorem message_header_eq (n : Nat) :
    message_header n = [n / 2 ^ 24 % 256, n / 2 ^ 16 % 256, n / 2 ^ 8 % 256, n % 256] := by
  simp only [message_header, and_ff, Nat.shiftRight_eq_div_pow]

theorem message_frame_eq (username buffer : List Nat) :
    message_frame username buffer =
      [1, 2, strlen username % 256] ++ cstr username ++
        [strlen buffer / 2 ^ 24 % 256, strlen buffer / 2 ^ 16 % 256,
         strlen buffer / 2 ^ 8 % 256, strlen buffer % 256] ++ cstr buffer := by
  simp only [message_frame, connect_header, guint8_of, message_header_eq, strlen,
    List.take_length, List.append_assoc]

/-! ## Lemmas on the traces of the sender -/

theorem write_loop_trace (bytes : List Nat) (conn : List WriteResult) :
    ∀ (to_send : Nat) (trace : List Ev),
      ∃ t, (write_loop bytes conn to_send trace).trace = trace ++ t := by
  induction conn with
  | nil =>
    intro to_send trace
    cases to_send <;> exact ⟨[], by simp [write_loop, WriteExit.trace]⟩
  | cons r conn ih =>
    intro to_send trace
    cases to_send with
    | zero => exact ⟨[], by simp [write_loop, WriteExit.trace]⟩
    | succ n =>
      cases r with
      | would_block =>
        obtain ⟨t, ht⟩ := ih (n + 1) (trace ++ [.write bytes .would_block])
        exact ⟨.write bytes .would_block :: t, by simp [write_loop, ht]⟩
      | failed msg =>
        exact ⟨[.write bytes (.failed msg),
          .stderr ["Error sending to socket: ", "\n"] [.str msg], .cancel],
          by simp only [write_loop, WriteExit.trace]⟩
      | ok k =>
        by_cases hk : k = 0
        · exact ⟨[.write bytes (.ok k), .stderr ["Unexpected short write\n"] [], .cancel],
            by simp only [write_loop, hk, if_true, WriteExit.trace]⟩
        · obtain ⟨t, ht⟩ := ih (gsize_sub (n + 1) k) (trace ++ [.write bytes (.ok k)])
          exact ⟨.write bytes (.ok k) :: t, by simp [write_loop, hk, ht]⟩

theorem output_loop_trace (username : List Nat) :
    ∀ (fuel to_send : Nat) (bytes stdin : List Nat) (conn : List WriteResult) (trace : List Ev)
      (cancelled : Bool),
      ∃ t, (output_loop username fuel to_send bytes stdin conn trace cancelled).trace = trace ++ t := by
  intro fuel
  induction fuel with
  | zero => intro to_send bytes stdin conn trace cancelled; exact ⟨[], by simp [output_loop]⟩
  | succ fuel ih =>
    intro to_send bytes stdin conn trace cancelled
    unfold output_loop
    by_cases h0 : to_send = 0
    · simp only [h0, if_true]
      cases hf : fgets 4096 stdin with
      | none => exact ⟨_, rfl⟩
      | some p =>
        obtain ⟨buffer, stdin1⟩ := p
        simp only
        by_cases hb : cstr buffer = [10]
        · simp only [hb, if_true]; exact ⟨_, rfl⟩
        · simp only [hb, if_false]
          obtain ⟨t, ht⟩ := write_loop_trace (message_frame username buffer) conn
            (message_frame username buffer).length (trace ++ [.fgets (some buffer)])
          cases hw : write_loop (message_frame username buffer) conn
              (message_frame username buffer).length (trace ++ [.fgets (some buffer)]) with
          | done conn1 trace1 =>
            rw [hw] at ht
            simp only [WriteExit.trace] at ht
            obtain ⟨t2, ht2⟩ := ih 0 (message_frame username buffer) stdin1 conn1 trace1 cancelled
            subst ht
            exact ⟨.fgets (some buffer) :: (t ++ t2), by rw [ht2]; simp⟩
          | fatal conn1 trace1 =>
            rw [hw] at ht
            simp only [WriteExit.trace] at ht
            exact ⟨.fgets (some buffer) :: t, by simp [ht]⟩
          | pending trace1 =>
            rw [hw] at ht
            simp only [WriteExit.trace] at ht
            exact ⟨.fgets (some buffer) :: t, by simp [ht]⟩
    · simp only [h0, if_false]
      obtain ⟨t, ht⟩ := write_loop_trace bytes conn to_send trace
      cases hw : write_loop bytes conn to_send trace with
      | done conn1 trace1 =>
        rw [hw] at ht
        simp only [WriteExit.trace] at ht
        obtain ⟨t2, ht2⟩ := ih 0 bytes stdin conn1 trace1 cancelled
        subst ht
        exact ⟨t ++ t2, by simp [ht2]⟩
      | fatal conn1 trace1 =>
        rw [hw] at ht
        simp only [WriteExit.trace] at ht
        exact ⟨t, by simp [ht]⟩
      | pending trace1 =>
        rw [hw] at ht
        simp only [WriteExit.trace] at ht
        exact ⟨t, by simp [ht]⟩

/-- The first write call of a frame records the frame as offered. -/
theorem write_loop_first (bytes : List Nat) (r : WriteResult) (conn : List WriteResult)
    (n : Nat) (trace : List Ev) :
    ∃ t, (write_loop bytes (r :: conn) (n + 1) trace).trace = trace ++ .write bytes r :: t := by
  cases r with
  | would_block =>
    obtain ⟨t, ht⟩ := write_loop_trace bytes conn (n + 1) (trace ++ [.write bytes .would_block])
    exact ⟨t, by simp [write_loop, ht]⟩
  | failed msg =>
    exact ⟨[.stderr ["Error sending to socket: ", "\n"] [.str msg], .cancel],
      by simp [write_loop, WriteExit.trace]⟩
  | ok k =>
    by_cases hk : k = 0
    · exact ⟨[.stderr ["Unexpected short write\n"] [], .cancel],
        by simp [write_loop, hk, WriteExit.trace]⟩
    · obtain ⟨t, ht⟩ := write_loop_trace bytes conn (gsize_sub (n + 1) k) (trace ++ [.write bytes (.ok k)])
      exact ⟨t, by simp [write_loop, hk, ht]⟩

theorem output_handler_first (username stdin : List Nat) (r : WriteResult)
    (conn : List WriteResult) (cancelled : Bool) :
    ∃ t, (output_handler username stdin (r :: conn) cancelled).trace =
      .write (connect_frame username) r :: t := by
  unfold output_handler
  have hlen : (connect_frame username).length = (strlen username + 2) + 1 := by
    simp [connect_frame, connect_header, strlen]
  rw [hlen]
  unfold output_loop
  simp only [Nat.succ_ne_zero, if_false]
  obtain ⟨t, ht⟩ := write_loop_first (connect_frame username) r conn (strlen username + 2) []
  cases hw : write_loop (connect_frame username) (r :: conn) (strlen username + 2 + 1) [] with
  | done conn1 trace1 =>
    rw [hw] at ht
    simp only [WriteExit.trace, List.nil_append] at ht
    obtain ⟨t2, ht2⟩ := output_loop_trace username (stdin.length + 1) 0 (connect_frame username)
      stdin conn1 trace1 cancelled
    subst ht
    exact ⟨t ++ t2, by simp [ht2]⟩
  | fatal conn1 trace1 =>
    rw [hw] at ht
    simp only [WriteExit.trace, List.nil_append] at ht
    exact ⟨t, by simp [ht]⟩
  | pending trace1 =>
    rw [hw] at ht
    simp only [WriteExit.trace, List.nil_append] at ht
    exact ⟨t, by simp [ht]⟩

/-! ## Lemmas on `fgets` and on one iteration of the sender -/

theorem fgets_aux_line (body rest : List Nat) (h : ∀ b ∈ body, b ≠ 10) :
    ∀ k, body.length < k → fgets_aux k (body ++ 10 :: rest) = (body ++ [10], rest) := by
  induction body with
  | nil =>
    intro k hk
    obtain ⟨k, rfl⟩ : ∃ j, k = j + 1 := ⟨k - 1, by simp at hk; omega⟩
    simp [fgets_aux]
  | cons c body ih =>
    intro k hk
    obtain ⟨k, rfl⟩ : ∃ j, k = j + 1 := ⟨k - 1, by simp at hk; omega⟩
    have hc : c ≠ 10 := h c (List.mem_cons_self _ _)
    have hb : ∀ b ∈ body, b ≠ 10 := fun b hb => h b (List.mem_cons_of_mem _ hb)
    have := ih hb k (by simp at hk; omega)
    simp [fgets_aux, hc, this]

theorem fgets_aux_full (chunk rest : List Nat) (h : ∀ b ∈ chunk, b ≠ 10) :
    fgets_aux chunk.length (chunk ++ rest) = (chunk, rest) := by
  induction chunk with
  | nil => simp [fgets_aux]
  | cons c chunk ih =>
    have hc : c ≠ 10 := h c (List.mem_cons_self _ _)
    have hb : ∀ b ∈ chunk, b ≠ 10 := fun b hb => h b (List.mem_cons_of_mem _ hb)
    simp [fgets_aux, hc, ih hb]

theorem is_line_split (l : List Nat) (h : is_line l) :
    l = l.dropLast ++ [10] ∧ l.dropLast ≠ [] ∧ l.dropLast.length + 1 ≤ 4095 := by
  obtain ⟨h1, h2, h3, _⟩ := h
  have hs : l.dropLast ++ [10] = l := List.dropLast_append_getLast? 10 (by simp [h1])
  refine ⟨hs.symm, ?_, ?_⟩
  · intro he
    have : l.dropLast.length = 0 := by rw [he]; rfl
    rw [List.length_dropLast] at this
    omega
  · rw [List.length_dropLast]
    omega

theorem is_line_cstr (l : List Nat) (h : is_line l) : cstr l = l ∧ l ≠ [10] := by
  obtain ⟨hs, hne, _⟩ := is_line_split l h
  constructor
  · apply cstr_eq_self
    intro b hb
    rw [hs] at hb
    rcases List.mem_append.mp hb with hb | hb
    · exact (h.2.2.2 b hb).1
    · simp at hb
      omega
  · intro he
    apply hne
    rw [he]
    rfl

theorem fgets_body (body rest : List Nat) (hne : body ≠ []) (hlen : body.length + 1 ≤ 4095)
    (hb : ∀ b ∈ body, b ≠ 10) :
    fgets 4096 ((body ++ [10]) ++ rest) = some (body ++ [10], rest) := by
  have haux := fgets_aux_line body rest hb 4095 (by omega)
  cases body with
  | nil => exact absurd rfl hne
  | cons c body =>
    simp only [List.cons_append, List.append_assoc, List.singleton_append,
      List.nil_append] at haux ⊢
    simp only [fgets]
    rw [show 4096 - 1 = 4095 from rfl, haux]

theorem fgets_is_line (l rest : List Nat) (h : is_line l) :
    fgets 4096 (l ++ rest) = some (l, rest) := by
  obtain ⟨hs, hne, hlen⟩ := is_line_split l h
  have hb : ∀ b ∈ l.dropLast, b ≠ 10 := fun b hb => (h.2.2.2 b hb).2
  have := fgets_body l.dropLast rest hne hlen hb
  rwa [← hs] at this

theorem gsize_sub_self (n : Nat) : gsize_sub n (n : Int) = 0 := by
  simp [gsize_sub]

theorem write_loop_would_block (bytes : List Nat) (conn : List WriteResult) (n : Nat) :
    ∀ (k : Nat) (trace : List Ev),
      write_loop bytes (List.replicate k .would_block ++ conn) (n + 1) trace =
        write_loop bytes conn (n + 1) (trace ++ List.replicate k (.write bytes .would_block)) := by
  intro k
  induction k with
  | zero => intro trace; simp
  | succ k ih =>
    intro trace
    rw [List.replicate_succ, List.cons_append, write_loop]
    rw [ih, List.append_assoc]
    rfl

theorem write_loop_accept (bytes : List Nat) (conn : List WriteResult) (trace : List Ev)
    (h : bytes ≠ []) :
    write_loop bytes (.ok bytes.length :: conn) bytes.length trace =
      .done conn (trace ++ [.write bytes (.ok bytes.length)]) := by
  obtain ⟨n, hn⟩ : ∃ n, bytes.length = n + 1 :=
    ⟨bytes.length - 1, by have := List.length_pos.mpr h; omega⟩
  rw [hn, write_loop]
  simp only [Nat.succ_ne_zero, if_false]
  rw [show ((n + 1 : Nat) : Int) = ((n + 1 : Nat) : Int) from rfl, gsize_sub_self]
  cases conn <;> rfl

theorem message_frame_ne_nil (username buffer : List Nat) : message_frame username buffer ≠ [] := by
  simp [message_frame, connect_header]

theorem connect_frame_ne_nil (username : List Nat) : connect_frame username ≠ [] := by
  simp [connect_frame, connect_header]

/-- One iteration of the loop on a buffer that is not the bare newline, when
the connection accepts the frame in one call after `k` would-block results. -/
theorem output_loop_step (username buffer stdin stdin1 bytes : List Nat) (fuel k : Nat)
    (conn : List WriteResult) (trace : List Ev) (cancelled : Bool)
    (hf : fgets 4096 stdin = some (buffer, stdin1)) (hb : cstr buffer ≠ [10]) :
    output_loop username (fuel + 1) 0 bytes stdin
        (List.replicate k .would_block ++ line_accept username buffer :: conn) trace cancelled =
      output_loop username fuel 0 (message_frame username buffer) stdin1 conn
        (trace ++ [.fgets (some buffer)] ++
          List.replicate k (.write (message_frame username buffer) .would_block) ++
          [.write (message_frame username buffer) (.ok (message_frame username buffer).length)])
        cancelled := by
  obtain ⟨n, hn⟩ : ∃ n, (message_frame username buffer).length = n + 1 :=
    ⟨(message_frame username buffer).length - 1,
      by have := List.length_pos.mpr (message_frame_ne_nil username buffer); omega⟩
  rw [output_loop]
  simp only [if_true, hf, hb, if_false]
  have hw := write_loop_would_block (message_frame username buffer)
    (line_accept username buffer :: conn) n k (trace ++ [.fgets (some buffer)])
  rw [← hn] at hw
  rw [hw, line_accept, write_loop_accept _ _ _ (message_frame_ne_nil username buffer)]

/-- The iteration that reads the bare newline. -/
theorem output_loop_stop (username bytes rest : List Nat) (fuel : Nat)
    (conn : List WriteResult) (trace : List Ev) (cancelled : Bool) :
    output_loop username (fuel + 1) 0 bytes (10 :: rest) conn trace cancelled =
      ⟨.returned, rest, conn, trace ++ [.fgets (some [10]), .cancel], true⟩ := by
  have hf : fgets 4096 (10 :: rest) = some ([10], rest) := by simp [fgets, fgets_aux]
  have hc : cstr [10] = [10] := by decide
  rw [output_loop]
  simp only [if_true, hf, hc]

/-- The first iteration: the connect frame, accepted in one call. -/
theorem output_handler_connect (username stdin : List Nat) (conn : List WriteResult)
    (cancelled : Bool) :
    output_handler username stdin (.ok (connect_frame username).length :: conn) cancelled =
      output_loop username (stdin.length + 1) 0 (connect_frame username) stdin conn
        [.write (connect_frame username) (.ok (connect_frame username).length)] cancelled := by
  have hne : (connect_frame username).length ≠ 0 := by
    have := List.length_pos.mpr (connect_frame_ne_nil username); omega
  rw [output_handler, output_loop]
  simp only [hne, if_false]
  rw [write_loop_accept _ _ _ (connect_frame_ne_nil username)]
  rfl

theorem length_le_flatten_length (lines : List (List Nat)) (h : ∀ l ∈ lines, is_line l) :
    lines.length ≤ lines.flatten.length := by
  induction lines with
  | nil => simp
  | cons l ls ih =>
    have h1 : 2 ≤ l.length := (h l (List.mem_cons_self _ _)).2.1
    have h2 := ih (fun x hx => h x (List.mem_cons_of_mem _ hx))
    simp only [List.flatten_cons, List.length_append, List.length_cons]
    omega

/-- A run of the loop over lines followed by the bare newline, every frame
accepted in one call. -/
theorem output_loop_lines (username : List Nat) :
    ∀ (lines : List (List Nat)) (fuel : Nat) (bytes rest : List Nat) (conn : List WriteResult)
      (trace : List Ev) (cancelled : Bool),
      (∀ l ∈ lines, is_line l) → lines.length + 1 ≤ fuel →
      output_loop username fuel 0 bytes (lines.flatten ++ 10 :: rest)
          (lines.map (line_accept username) ++ conn) trace cancelled =
        ⟨.returned, rest, conn,
          trace ++ (lines.map (line_events username)).flatten ++ [.fgets (some [10]), .cancel],
          true⟩ := by
  intro lines
  induction lines with
  | nil =>
    intro fuel bytes rest conn trace cancelled _ hfuel
    obtain ⟨f, rfl⟩ : ∃ f, fuel = f + 1 := ⟨fuel - 1, by simp at hfuel; omega⟩
    simpa using output_loop_stop username bytes rest f conn trace cancelled
  | cons l ls ih =>
    intro fuel bytes rest conn trace cancelled hl hfuel
    obtain ⟨f, rfl⟩ : ∃ f, fuel = f + 1 := ⟨fuel - 1, by simp at hfuel; omega⟩
    have hline : is_line l := hl l (List.mem_cons_self _ _)
    have hstep := output_loop_step username l (l ++ (ls.flatten ++ 10 :: rest))
      (ls.flatten ++ 10 :: rest) bytes f 0 (ls.map (line_accept username) ++ conn) trace cancelled
      (fgets_is_line l _ hline)
      (by rw [(is_line_cstr l hline).1]; exact (is_line_cstr l hline).2)
    simp only [List.replicate_zero, List.nil_append, List.append_nil] at hstep
    simp only [List.flatten_cons, List.map_cons, List.cons_append, List.append_assoc]
    rw [hstep, ih f _ rest conn _ cancelled (fun x hx => hl x (List.mem_cons_of_mem _ hx))
      (by simp at hfuel; omega)]
    simp [line_events]

theorem fgets_chunk (chunk rest : List Nat) (hlen : chunk.length = 4095)
    (h : ∀ b ∈ chunk, b ≠ 10) : fgets 4096 (chunk ++ rest) = some (chunk, rest) := by
  have haux := fgets_aux_full chunk rest h
  rw [hlen] at haux
  cases chunk with
  | nil => simp at hlen
  | cons c chunk =>
    simp only [List.cons_append] at haux ⊢
    simp only [fgets]
    rw [show 4096 - 1 = 4095 from rfl, haux]

/-! ## The frames of the sender -/

/-- C1, as stated, fails on a line with a zero byte: the text of the frame is
taken with `strlen`. For the username "a" and the line 'b' 00 'c' 0A (4
bytes) the frame built is 01 02 01 'a' 00 00 00 01 'b', and this is the frame
offered to the connection, not 01 02 01 'a' 00 00 00 04 'b' 00 'c' 0A. -/
theorem line_with_zero_byte_is_cut :
    message_frame [97] [98, 0, 99, 10] = [1, 2, 1, 97, 0, 0, 0, 1, 98]
      ∧ message_frame [97] [98, 0, 99, 10] ≠
          [1, 2, [97].length] ++ [97] ++
            [[98, 0, 99, 10].length / 2 ^ 24 % 256, [98, 0, 99, 10].length / 2 ^ 16 % 256,
             [98, 0, 99, 10].length / 2 ^ 8 % 256, [98, 0, 99, 10].length % 256] ++
            [98, 0, 99, 10]
      ∧ (output_handler [97] [98, 0, 99, 10] [.ok 4, .ok 9] false).trace =
          [.write [1, 0, 1, 97] (.ok 4), .fgets (some [98, 0, 99, 10]),
           .write [1, 2, 1, 97, 0, 0, 0, 1, 98] (.ok 9), .fgets none, .cancel] := by
  decide

/-- C1, amended: for a username of at most 255 bytes and a line of text of at
most 4095 bytes that has no zero byte, the Message frame built by
`output_handler` is `[1, 2, len(username)] ++ username ++` the length of the
text as four big-endian bytes `++ text`; the four bytes are base-256 digits
whose value is the length; for "alice" and "hi\n" the frame is
01 02 05 'a' 'l' 'i' 'c' 'e' 00 00 00 03 'h' 'i' 0A. -/
theorem message_frame_layout (username text : List Nat)
    (hu : ∀ b ∈ username, b ≠ 0) (hulen : username.length ≤ 255)
    (ht : ∀ b ∈ text, b ≠ 0) (htlen : text.length ≤ 4095) :
    message_frame username text =
        [1, 2, username.length] ++ username ++
          [text.length / 2 ^ 24 % 256, text.length / 2 ^ 16 % 256,
           text.length / 2 ^ 8 % 256, text.length % 256] ++ text
      ∧ ((text.length / 2 ^ 24 % 256) * 2 ^ 24 + (text.length / 2 ^ 16 % 256) * 2 ^ 16 +
          (text.length / 2 ^ 8 % 256) * 2 ^ 8 + text.length % 256 = text.length)
      ∧ message_frame [97, 108, 105, 99, 101] [104, 105, 10] =
          [1, 2, 5, 97, 108, 105, 99, 101, 0, 0, 0, 3, 104, 105, 10] := by
  refine ⟨?_, ?_, by decide⟩
  · rw [message_frame_eq, cstr_eq_self username hu, cstr_eq_self text ht,
      strlen_eq_length username hu, strlen_eq_length text ht,
      Nat.mod_eq_of_lt (by omega : username.length < 256)]
  · omega

theorem message_frame_layout_witness :
    message_frame [97, 108, 105, 99, 101] [104, 105, 10] =
        [1, 2, [97, 108, 105, 99, 101].length] ++ [97, 108, 105, 99, 101] ++
          [[104, 105, 10].length / 2 ^ 24 % 256, [104, 105, 10].length / 2 ^ 16 % 256,
           [104, 105, 10].length / 2 ^ 8 % 256, [104, 105, 10].length % 256] ++ [104, 105, 10] :=
  (message_frame_layout [97, 108, 105, 99, 101] [104, 105, 10] (by decide) (by decide)
    (by decide) (by decide)).1

/-- C2: for a username of at most 255 bytes (a C string), the first frame
built by `output_handler` is `[1, 0, len(username)] ++ username`, and the
first thing the handler does, whatever the input and whatever the connection
answers, is a write call that offers this frame: no input line is read
before it. -/
theorem connect_frame_first (username stdin : List Nat) (r : WriteResult)
    (conn : List WriteResult) (cancelled : Bool)
    (hu : ∀ b ∈ username, b ≠ 0) (hulen : username.length ≤ 255) :
    connect_frame username = [1, 0, username.length] ++ username
      ∧ ∃ t, (output_handler username stdin (r :: conn) cancelled).trace =
          .write ([1, 0, username.length] ++ username) r :: t := by
  have h : connect_frame username = [1, 0, username.length] ++ username := by
    simp only [connect_frame, connect_header, guint8_of]
    rw [cstr_eq_self username hu, strlen_eq_length username hu,
      Nat.mod_eq_of_lt (by omega : username.length < 256)]
  refine ⟨h, ?_⟩
  rw [← h]
  exact output_handler_first username stdin r conn cancelled

theorem connect_frame_first_witness :
    connect_frame [97, 108, 105, 99, 101] = [1, 0, 5, 97, 108, 105, 99, 101]
      ∧ ∃ t, (output_handler [97, 108, 105, 99, 101] [104, 105, 10] [.ok 8] false).trace =
          .write [1, 0, 5, 97, 108, 105, 99, 101] (.ok 8) :: t :=
  connect_frame_first [97, 108, 105, 99, 101] [104, 105, 10] (.ok 8) [] false
    (by decide) (by decide)

/-! ## Reading and writing in several calls -/

/-- C3: `read_buffer` is not a read-exact when the first read call returns
fewer bytes than asked. Two bytes are asked from a stream that holds
10 20 30 40, of which the first read call returns one: `size` is
overwritten by each call, so the loop goes on asking for one byte, stores
each at the start of the buffer, and ends at end of input with size 0, the
four bytes consumed and 40 in the buffer. -/
theorem read_buffer_short_first_read :
    read_buffer ⟨[[10], [20, 30, 40]], none, [], false⟩ [0, 0] 2 =
      some (0, [40, 0], ⟨[], none,
        [.read 2 1, .read 1 1, .read 1 1, .read 1 1, .read 1 0, .stderr ["Socket closed\n"] []],
        false⟩) := by
  decide

/-- C4: every write call offers the frame from its first byte. For the
username "a" the connect frame is 01 00 01 'a'; when the connection accepts
one byte and then three, both calls offer the four bytes of the frame, the
loop ends with `to_send = 0`, and the connection has accepted 01 01 00 01. -/
theorem write_loop_offers_whole_frame :
    connect_frame [97] = [1, 0, 1, 97]
      ∧ output_handler [97] [] [.ok 1, .ok 3] false =
          ⟨.returned, [], [],
            [.write [1, 0, 1, 97] (.ok 1), .write [1, 0, 1, 97] (.ok 3), .fgets none, .cancel],
            true⟩
      ∧ wire (output_handler [97] [] [.ok 1, .ok 3] false).trace = [1, 1, 0, 1] := by
  decide

/-! ## Decoding -/

/-- C5: a ConnectedSuccessfully body with length prefix 00 00 is a decode
failure in the code. `read_connected_successfully` issues no further read
call but returns `NULL`, because `read_buffer` returns 0 for a count of 0;
`input_handler` prints no line for the frame and leaves the loop with the
next frame (01 02 01 'C') unread. -/
theorem connected_successfully_empty_list_fails :
    read_connected_successfully ⟨[[0, 0, 1, 2, 1, 67]], none, [], false⟩ =
        some (none, ⟨[[1, 2, 1, 67]], none, [.read 2 2], false⟩)
      ∧ input_handler [97] [[1, 1, 0, 0, 1, 2, 1, 67]] none false =
        some ⟨[[1, 2, 1, 67]], none,
          [.read 2 2, .read 2 2, .stderr ["Print any key to exit..."] [], .cancel], true⟩ := by
  decide

/-- C6: when `read_buffer` has delivered the two header bytes `v`, `t` and
`v ≠ 1`, `read_response_type` returns `UNKNOWN` after the diagnostic
"Unsupported protocol version: v", whatever `t` is. -/
theorem version_mismatch (s s1 : Recv) (size : Int) (v t : Nat)
    (hread : read_buffer s [0, 0] 2 = some (size, [v, t], s1)) (hsize : 0 < size)
    (hv : v ≠ 1) :
    read_response_type s =
        some (UNKNOWN, s1.log (.stderr ["Unsupported protocol version: ", "\n"] [.int v]))
      ∧ render ["Unsupported protocol version: ", "\n"] [.int v] =
        some (lit "Unsupported protocol version: " ++ (lit (toString (v : Int)) ++ lit "\n")) := by
  constructor
  · simp only [read_response_type, hread]
    rw [if_neg (by omega)]
    simp [hv]
  · simp [render, render_arg]

theorem version_mismatch_witness :
    read_response_type ⟨[[2, 3, 9]], none, [], false⟩ =
        some (UNKNOWN, (Recv.mk [[9]] none [.read 2 2] false).log
          (.stderr ["Unsupported protocol version: ", "\n"] [.int (2 : Nat)]))
      ∧ render ["Unsupported protocol version: ", "\n"] [.int (2 : Nat)] =
        some (lit "Unsupported protocol version: " ++ (lit (toString ((2 : Nat) : Int)) ++ lit "\n")) :=
  version_mismatch ⟨[[2, 3, 9]], none, [], false⟩ ⟨[[9]], none, [.read 2 2], false⟩ 2 2 3
    (by decide) (by decide) (by decide)

theorem gint8_of_small (t : Nat) (h : t < 128) : gint8_of t = (t : Int) := by
  unfold gint8_of
  rw [Nat.mod_eq_of_lt (by omega : t < 256), if_pos h]

/-- C7: when `read_buffer` has delivered the header bytes 1, `t`,
`read_response_type` returns `t` if `t ≤ 4`, and `t` is then not
the failure value; if `t > 4` it returns `UNKNOWN` after the diagnostic
"Unsupported response type: t"; so the value returned is `t` if and only
if `t` is in 0..4. -/
theorem response_type_range (s s1 : Recv) (size : Int) (t : Nat)
    (hread : read_buffer s [0, 0] 2 = some (size, [1, t], s1)) (hsize : 0 < size) :
    (t ≤ 4 → read_response_type s = some ((t : Int), s1) ∧ (t : Int) ≠ UNKNOWN)
      ∧ (4 < t → read_response_type s =
          some (UNKNOWN, s1.log (.stderr ["Unsupported response type: ", "\n"] [.int t])))
      ∧ ((read_response_type s).map Prod.fst = some (t : Int) ↔ t ≤ 4) := by
  have hsz : ¬ size ≤ 0 := by omega
  have hle : t ≤ 4 → read_response_type s = some ((t : Int), s1) := by
    intro h
    simp only [read_response_type, hread]
    rw [if_neg hsz]
    have h4 : ¬ t > 4 := by omega
    simp [h4, gint8_of_small t (by omega)]
  have hgt : 4 < t → read_response_type s =
      some (UNKNOWN, s1.log (.stderr ["Unsupported response type: ", "\n"] [.int t])) := by
    intro h
    simp only [read_response_type, hread]
    rw [if_neg hsz]
    simp [h]
  refine ⟨fun h => ⟨hle h, by unfold UNKNOWN; omega⟩, hgt, ?_⟩
  constructor
  · intro h
    by_contra hn
    rw [hgt (by omega)] at h
    simp only [Option.map_some', Option.some.injEq, UNKNOWN] at h
    omega
  · intro h
    rw [hle h]
    rfl

theorem response_type_range_witness :
    (3 ≤ 4 → read_response_type ⟨[[1, 3, 9]], none, [], false⟩ =
        some (((3 : Nat) : Int), ⟨[[9]], none, [.read 2 2], false⟩) ∧ ((3 : Nat) : Int) ≠ UNKNOWN)
      ∧ (4 < 3 → read_response_type ⟨[[1, 3, 9]], none, [], false⟩ =
          some (UNKNOWN, (Recv.mk [[9]] none [.read 2 2] false).log
            (.stderr ["Unsupported response type: ", "\n"] [.int (3 : Nat)])))
      ∧ ((read_response_type ⟨[[1, 3, 9]], none, [], false⟩).map Prod.fst =
          some ((3 : Nat) : Int) ↔ 3 ≤ 4) :=
  response_type_range ⟨[[1, 3, 9]], none, [], false⟩ ⟨[[9]], none, [.read 2 2], false⟩ 2 3
    (by decide) (by decide)

/-- C8: an error code of 128 or more is not passed through as its unsigned
value. The byte is returned by `read_error` as a `gint8`: for the Error
frame 01 00 C8 (code 200) `input_handler` prints "Unsupported error code:
-56", and the code 255 is returned as -1, the value `UNKNOWN` that
`read_error` also returns when the byte cannot be read. -/
theorem error_code_high_byte :
    input_handler [97] [[1, 0, 200]] none false =
        some ⟨[], none,
          [.read 2 2, .read 1 1, .stderr ["Unsupported error code: ", "\n"] [.int (-56)],
           .stderr ["Print any key to exit..."] [], .cancel], true⟩
      ∧ render ["Unsupported error code: ", "\n"] [.int (-56)] =
          some (lit "Unsupported error code: -56\n")
      ∧ (read_error ⟨[[255]], none, [], false⟩).map Prod.fst = some UNKNOWN
      ∧ (read_error ⟨[], none, [], false⟩).map Prod.fst = some UNKNOWN := by
  decide

/-! ## Lines and the end of the session -/

/-- C9, as stated, fails on a line of 4096 bytes (4095 times 'a' and the
newline): `fgets` stores 4095 bytes, the frame sent has the text without
the newline (length bytes 00 00 0F FF), and the newline left over is read as
a bare newline, which ends the session. It also fails on a line with a zero
byte: for the line 'b' 00 'c' 0A the text of the frame is 'b' alone. -/
theorem long_line_is_split_and_ends_session :
    output_handler [97] (List.replicate 4095 97 ++ [10]) [.ok 4, .ok 4103] false =
        ⟨.returned, [], [],
          [.write [1, 0, 1, 97] (.ok 4), .fgets (some (List.replicate 4095 97)),
           .write ([1, 2, 1, 97, 0, 0, 15, 255] ++ List.replicate 4095 97) (.ok 4103),
           .fgets (some [10]), .cancel],
          true⟩
      ∧ message_frame [97] [98, 0, 99, 10] = [1, 2, 1, 97, 0, 0, 0, 1, 98] := by
  refine ⟨?_, by decide⟩
  have hno0 : ∀ b ∈ List.replicate 4095 97, b ≠ 0 := by
    intro b hb
    rw [List.eq_of_mem_replicate hb]
    decide
  have hno10 : ∀ b ∈ List.replicate 4095 97, b ≠ 10 := by
    intro b hb
    rw [List.eq_of_mem_replicate hb]
    decide
  have hframe : message_frame [97] (List.replicate 4095 97) =
      [1, 2, 1, 97, 0, 0, 15, 255] ++ List.replicate 4095 97 := by
    rw [message_frame_eq, cstr_eq_self _ hno0, strlen_eq_length _ hno0, List.length_replicate]
    rfl
  have hlen : (message_frame [97] (List.replicate 4095 97)).length = 4103 := by
    rw [hframe, List.length_append, List.length_replicate]
    rfl
  have hcstr : cstr (List.replicate 4095 97) ≠ [10] := by
    rw [cstr_eq_self _ hno0]
    intro h
    have := congrArg List.length h
    rw [List.length_replicate] at this
    simp at this
  have h1 := output_handler_connect [97] (List.replicate 4095 97 ++ [10]) [.ok 4103] false
  have h2 := output_loop_step [97] (List.replicate 4095 97) (List.replicate 4095 97 ++ [10]) [10]
    (connect_frame [97]) 4096 0 [] [.write (connect_frame [97]) (.ok (connect_frame [97]).length)]
    false (fgets_chunk _ [10] (List.length_replicate _ _) hno10) hcstr
  have h3 := output_loop_stop [97] (message_frame [97] (List.replicate 4095 97)) [] 4095 []
    ([.write (connect_frame [97]) (.ok (connect_frame [97]).length)] ++
      [.fgets (some (List.replicate 4095 97))] ++
      [.write (message_frame [97] (List.replicate 4095 97))
        (.ok (message_frame [97] (List.replicate 4095 97)).length)]) false
  have hfuel : (List.replicate 4095 97 ++ [10]).length + 1 = 4096 + 1 := by
    rw [List.length_append, List.length_replicate]
    rfl
  simp only [List.replicate_zero, List.nil_append, List.append_nil, line_accept] at h2
  rw [hfuel, show (connect_frame [97]).length = 4 from rfl] at h1
  rw [show (connect_frame [97]).length = 4 from rfl, hlen] at h2
  rw [show (4096 : Nat) = 4095 + 1 from rfl] at h2
  rw [show (connect_frame [97]).length = 4 from rfl, hlen] at h3
  rw [h1, h2, h3, hframe]
  rfl

/-- C9, amended: for every input line that ends in its newline, has at least
one byte before it, is at most 4095 bytes long with the newline and has no
zero byte, the iteration of the loop that reads it sends exactly one frame,
`[1, 2, len(username) mod 256] ++ username ++` the length of the line as four
big-endian bytes `++` the whole line with its newline, when the connection
accepts the frame in one write call (after `k` would-block results, each a
retry with the same frame); the loop then goes on with the input after
the line. -/
theorem line_sent_as_one_frame (username line rest bytes : List Nat) (fuel k : Nat)
    (conn : List WriteResult) (trace : List Ev) (cancelled : Bool) (hl : is_line line) :
    output_loop username (fuel + 1) 0 bytes (line ++ rest)
        (List.replicate k .would_block ++ .ok (message_frame username line).length :: conn)
        trace cancelled =
      output_loop username fuel 0 (message_frame username line) rest conn
        (trace ++ [.fgets (some line)] ++
          List.replicate k (.write (message_frame username line) .would_block) ++
          [.write (message_frame username line) (.ok (message_frame username line).length)])
        cancelled
      ∧ message_frame username line =
        [1, 2, strlen username % 256] ++ cstr username ++
          [line.length / 2 ^ 24 % 256, line.length / 2 ^ 16 % 256,
           line.length / 2 ^ 8 % 256, line.length % 256] ++ line := by
  have hc := is_line_cstr line hl
  constructor
  · exact output_loop_step username line (line ++ rest) rest bytes fuel k conn trace cancelled
      (fgets_is_line line rest hl) (by rw [hc.1]; exact hc.2)
  · rw [message_frame_eq]
    simp only [strlen, hc.1]

theorem line_sent_as_one_frame_witness :
    output_loop [97] (1 + 1) 0 [1, 0, 1, 97] ([104, 105, 10] ++ [98, 10])
        (List.replicate 1 .would_block ++ .ok (message_frame [97] [104, 105, 10]).length :: [])
        [] false =
      output_loop [97] 1 0 (message_frame [97] [104, 105, 10]) [98, 10] []
        ([] ++ [.fgets (some [104, 105, 10])] ++
          List.replicate 1 (.write (message_frame [97] [104, 105, 10]) .would_block) ++
          [.write (message_frame [97] [104, 105, 10])
            (.ok (message_frame [97] [104, 105, 10]).length)])
        false
      ∧ message_frame [97] [104, 105, 10] =
        [1, 2, strlen [97] % 256] ++ cstr [97] ++
          [[104, 105, 10].length / 2 ^ 24 % 256, [104, 105, 10].length / 2 ^ 16 % 256,
           [104, 105, 10].length / 2 ^ 8 % 256, [104, 105, 10].length % 256] ++ [104, 105, 10] :=
  line_sent_as_one_frame [97] [104, 105, 10] [98, 10] [1, 0, 1, 97] 1 1 [] [] false (by decide)

/-- C10: when the loop reads a line that is exactly the newline, whatever has
happened before (`trace`), the handler returns: the trace is extended by
the `fgets` and the cancellation only, so no write call is made for the
line, the input after the line is left unread, the connection is not
called, and the token is set. For a whole run on lines followed by the bare
newline (each frame accepted in one call): the connect frame and the
frames of the lines before it have been written in order, one per
line, and nothing after them. -/
theorem bare_newline_ends_session (username : List Nat) :
    (∀ (fuel : Nat) (bytes rest : List Nat) (conn : List WriteResult) (trace : List Ev)
        (cancelled : Bool),
        output_loop username (fuel + 1) 0 bytes (10 :: rest) conn trace cancelled =
          ⟨.returned, rest, conn, trace ++ [.fgets (some [10]), .cancel], true⟩
        ∧ wire (trace ++ [.fgets (some [10]), .cancel]) = wire trace)
      ∧ ∀ (lines : List (List Nat)) (rest : List Nat) (conn : List WriteResult) (cancelled : Bool),
        (∀ l ∈ lines, is_line l) →
        output_handler username (lines.flatten ++ 10 :: rest)
            (.ok (connect_frame username).length :: lines.map (line_accept username) ++ conn)
            cancelled =
          ⟨.returned, rest, conn,
            [.write (connect_frame username) (.ok (connect_frame username).length)] ++
              (lines.map (line_events username)).flatten ++ [.fgets (some [10]), .cancel],
            true⟩ := by
  constructor
  · intro fuel bytes rest conn trace cancelled
    refine ⟨output_loop_stop username bytes rest fuel conn trace cancelled, ?_⟩
    simp [wire, Ev.accepted]
  · intro lines rest conn cancelled hl
    have hc := output_handler_connect username (lines.flatten ++ 10 :: rest)
      (lines.map (line_accept username) ++ conn) cancelled
    rw [List.cons_append, hc]
    apply output_loop_lines username lines _ _ rest conn _ cancelled hl
    have := length_le_flatten_length lines hl
    simp only [List.length_append, List.length_cons]
    omega

theorem bare_newline_ends_session_witness :
    output_handler [97] ([[104, 105, 10], [98, 10]].flatten ++ 10 :: [99, 10])
        (.ok (connect_frame [97]).length ::
          [[104, 105, 10], [98, 10]].map (line_accept [97]) ++ [.ok 7])
        false =
      ⟨.returned, [99, 10], [.ok 7],
        [.write (connect_frame [97]) (.ok (connect_frame [97]).length)] ++
          ([[104, 105, 10], [98, 10]].map (line_events [97])).flatten ++
          [.fgets (some [10]), .cancel],
        true⟩ :=
  (bare_newline_ends_session [97]).2 [[104, 105, 10], [98, 10]] [99, 10] [.ok 7] false
    (by decide)

/-! ## Every read call takes a byte or ends the loop -/

theorem g_input_stream_read_spec (error : Option (List Nat)) (buff : List Nat) (n : Nat) :
    ∀ chunks : List (List Nat),
      (chunks.flatten = [] ∧
        g_input_stream_read error chunks buff (n + 1) =
          (if error.isSome then -1 else 0, [], buff)) ∨
      ∃ d chunks1, d ≠ [] ∧ d.length ≤ n + 1 ∧ chunks.flatten = d ++ chunks1.flatten ∧
        g_input_stream_read error chunks buff (n + 1) =
          ((d.length : Int), chunks1, d ++ buff.drop d.length) := by
  intro chunks
  induction chunks with
  | nil => exact Or.inl ⟨rfl, rfl⟩
  | cons c cs ih =>
    cases c with
    | nil =>
      rcases ih with ⟨h1, h2⟩ | ⟨d, chunks1, h1, h2, h3, h4⟩
      · exact Or.inl ⟨by simpa using h1, by rw [g_input_stream_read]; exact h2⟩
      · exact Or.inr ⟨d, chunks1, h1, h2, by simpa using h3, by rw [g_input_stream_read]; exact h4⟩
    | cons b cr =>
      refine Or.inr ⟨(b :: cr).take (n + 1),
        if (b :: cr).drop (n + 1) = [] then cs else (b :: cr).drop (n + 1) :: cs, ?_, ?_, ?_, ?_⟩
      · simp
      · simp
      · by_cases hd : (b :: cr).drop (n + 1) = []
        · rw [if_pos hd]
          have : (b :: cr).take (n + 1) = b :: cr := by
            have := List.take_append_drop (n + 1) (b :: cr)
            rw [hd, List.append_nil] at this
            exact this
          rw [this]
          simp
        · rw [if_neg hd]
          simp only [List.flatten_cons]
          rw [← List.append_assoc, List.take_append_drop]
      · rw [g_input_stream_read]

theorem stdouts_append (a b : List Ev) : stdouts (a ++ b) = stdouts a ++ stdouts b := by
  simp [stdouts]

theorem reads_append (a b : List Ev) : reads (a ++ b) = reads a ++ reads b := by
  simp [reads]

theorem Recv.quiet_refl (s : Recv) : s.quiet s :=
  ⟨rfl, rfl, rfl, Nat.le_refl _⟩

theorem Recv.quiet_trans {s t u : Recv} (h1 : s.quiet t) (h2 : t.quiet u) : s.quiet u :=
  ⟨h2.1.trans h1.1, h2.2.1.trans h1.2.1, h2.2.2.1.trans h1.2.2.1, Nat.le_trans h2.2.2.2 h1.2.2.2⟩

/-- The loop of `read_buffer` returns within `pending.length + 1` evaluations
of its condition: a read call that returns a positive size has taken that
many bytes, any other result ends the loop. -/
theorem read_buffer_loop_total (count : Nat) :
    ∀ (fuel : Nat) (s : Recv) (buff : List Nat) (size : Int),
      0 ≤ size → size ≤ count → s.pending.length + 1 ≤ fuel →
      ∃ r b t, read_buffer_loop count fuel s buff size = some (r, b, t) ∧ s.quiet t ∧
        (0 < r → r = size ∨ t.pending.length < s.pending.length) ∧
        (reads t.trace).length + t.pending.length ≤
          (reads s.trace).length + s.pending.length + 1 := by
  intro fuel
  induction fuel with
  | zero => intro s buff size _ _ h; omega
  | succ fuel ih =>
    intro s buff size h0 hc hf
    obtain ⟨chunks, error, trace, cancelled⟩ := s
    rw [read_buffer_loop]
    by_cases hsz : size = (count : Int)
    · rw [if_neg (by simpa using hsz)]
      exact ⟨size, buff, _, rfl, Recv.quiet_refl _, fun _ => Or.inl rfl, by omega⟩
    · rw [if_pos hsz]
      obtain ⟨m, hm⟩ : ∃ m, ((count : Int) - size).toNat = m + 1 :=
        ⟨((count : Int) - size).toNat - 1, by omega⟩
      rw [hm]
      simp only [Recv.pending] at hf
      rcases g_input_stream_read_spec error buff m chunks with
        ⟨hempty, hread⟩ | ⟨d, chunks1, hd, hdlen, hflat, hread⟩
      · simp only [hread]
        cases error with
        | none =>
          simp only [Option.isSome_none, Bool.false_eq_true, if_false, lt_self_iff_false, if_true]
          refine ⟨_, _, _, rfl, ⟨rfl, rfl, ?_, ?_⟩, fun h => absurd h (by omega), ?_⟩
          · simp [stdouts_append, stdouts]
          · simp [Recv.pending]
          · simp [reads_append, reads, Recv.pending, hempty]
        | some msg =>
          simp only [Option.isSome_some, if_true, Int.reduceNeg, Int.reduceLT]
          refine ⟨_, _, _, rfl, ⟨rfl, rfl, ?_, ?_⟩, fun h => absurd h (by omega), ?_⟩
          · simp [stdouts_append, stdouts]
          · simp [Recv.pending]
          · simp [reads_append, reads, Recv.pending, hempty]
      · simp only [hread]
        have hpos : 0 < d.length := List.length_pos.mpr hd
        have h1 : ¬ ((d.length : Int) < 0) := by omega
        have h2 : ¬ ((d.length : Int) = 0) := by omega
        simp only [h1, h2, if_false]
        have hplen : chunks.flatten.length = d.length + chunks1.flatten.length := by
          rw [hflat, List.length_append]
        obtain ⟨r, b, t, hres, hq, hr, hreads⟩ := ih
          ⟨chunks1, error, trace ++ [.read (m + 1) (d.length : Int)], cancelled⟩
          (d ++ buff.drop d.length) (d.length : Int) (by omega) (by omega)
          (by simp only [Recv.pending]; omega)
        have hstep : Recv.quiet ⟨chunks, error, trace, cancelled⟩
            ⟨chunks1, error, trace ++ [.read (m + 1) (d.length : Int)], cancelled⟩ := by
          refine ⟨rfl, rfl, ?_, ?_⟩
          · simp [stdouts_append, stdouts]
          · simp only [Recv.pending]; omega
        have hrl : (reads (trace ++ [Ev.read (m + 1) (d.length : Int)])).length =
            (reads trace).length + 1 := by
          simp [reads_append, reads]
        refine ⟨r, b, t, hres, Recv.quiet_trans hstep hq, ?_, ?_⟩
        · intro _
          right
          have := hq.2.2.2
          simp only [Recv.pending] at this ⊢
          omega
        · simp only [Recv.pending] at hreads ⊢
          rw [hrl] at hreads
          omega

theorem read_buffer_total (s : Recv) (buff : List Nat) (count : Nat) :
    ∃ r b t, read_buffer s buff count = some (r, b, t) ∧ s.quiet t ∧
      (0 < r → t.pending.length < s.pending.length) ∧
      (reads t.trace).length + t.pending.length ≤
        (reads s.trace).length + s.pending.length + 1 := by
  obtain ⟨r, b, t, h, hq, hr, hreads⟩ :=
    read_buffer_loop_total count (s.pending.length + 1) s buff 0 (Int.le_refl 0)
      (Int.ofNat_nonneg count) (Nat.le_refl _)
  refine ⟨r, b, t, h, hq, ?_, hreads⟩
  intro hpos
  rcases hr hpos with h0 | hlt
  · omega
  · exact hlt

theorem Recv.quiet_log_stderr (s : Recv) (pieces : List String) (args : List Arg) :
    s.quiet (s.log (.stderr pieces args)) := by
  refine ⟨rfl, rfl, ?_, Nat.le_refl _⟩
  simp [Recv.log, stdouts_append, stdouts]

theorem read_response_type_total (s : Recv) :
    ∃ rt t, read_response_type s = some (rt, t) ∧ s.quiet t ∧
      (rt ≠ UNKNOWN → t.pending.length < s.pending.length) := by
  obtain ⟨r, b, t, h, hq, hr, _⟩ := read_buffer_total s [0, 0] 2
  simp only [read_response_type, h]
  by_cases h1 : r ≤ 0
  · rw [if_pos h1]
    exact ⟨_, _, rfl, hq, fun h => absurd rfl h⟩
  · rw [if_neg h1]
    by_cases h2 : b.getD 0 0 ≠ 1
    · rw [if_pos h2]
      exact ⟨_, _, rfl, Recv.quiet_trans hq (t.quiet_log_stderr _ _), fun h => absurd rfl h⟩
    · rw [if_neg h2]
      by_cases h3 : b.getD 1 0 > 4 ∨ ((b.getD 1 0 : Nat) : Int) < 0
      · rw [if_pos h3]
        exact ⟨_, _, rfl, Recv.quiet_trans hq (t.quiet_log_stderr _ _), fun h => absurd rfl h⟩
      · rw [if_neg h3]
        exact ⟨_, _, rfl, hq, fun _ => hr (by omega)⟩

theorem read_block_total (s : Recv) (n : Nat) :
    ∃ r t, read_block s n = some (r, t) ∧ s.quiet t := by
  obtain ⟨r, b, t, h, hq, _, _⟩ := read_buffer_total s ((g_new0 n).getD []) n
  simp only [read_block, h]
  by_cases h1 : r ≤ 0
  · rw [if_pos h1]; exact ⟨_, _, rfl, hq⟩
  · rw [if_neg h1]; exact ⟨_, _, rfl, hq⟩

theorem read_connected_successfully_total (s : Recv) :
    ∃ r t, read_connected_successfully s = some (r, t) ∧ s.quiet t := by
  obtain ⟨r, b, t, h, hq, _, _⟩ := read_buffer_total s [0, 0] 2
  simp only [read_connected_successfully, h]
  by_cases h1 : r ≤ 0
  · rw [if_pos h1]; exact ⟨_, _, rfl, hq⟩
  · rw [if_neg h1]
    obtain ⟨r2, t2, h2, hq2⟩ := read_block_total t
      ((((b.getD 0 0 &&& 0xFF) <<< 8) ||| (b.getD 1 0 &&& 0xFF)) % 2 ^ 16)
    exact ⟨r2, t2, h2, Recv.quiet_trans hq hq2⟩

theorem read_user_total (s : Recv) :
    ∃ r t, read_user s = some (r, t) ∧ s.quiet t := by
  obtain ⟨r, b, t, h, hq, _, _⟩ := read_buffer_total s [0] 1
  simp only [read_user, h]
  by_cases h1 : r ≤ 0
  · rw [if_pos h1]; exact ⟨_, _, rfl, hq⟩
  · rw [if_neg h1]
    obtain ⟨r2, t2, h2, hq2⟩ := read_block_total t (b.getD 0 0)
    exact ⟨r2, t2, h2, Recv.quiet_trans hq hq2⟩

theorem read_message_total (s : Recv) :
    ∃ r t, read_message s = some (r, t) ∧ s.quiet t := by
  obtain ⟨r, b, t, h, hq, _, _⟩ := read_buffer_total s [0, 0, 0, 0] 4
  simp only [read_message, h]
  by_cases h1 : r ≤ 0
  · rw [if_pos h1]; exact ⟨_, _, rfl, hq⟩
  · rw [if_neg h1]
    obtain ⟨r2, t2, h2, hq2⟩ := read_block_total t
      ((((b.getD 0 0 &&& 0xFF) <<< 24) ||| ((b.getD 1 0 &&& 0xFF) <<< 16) |||
        ((b.getD 2 0 &&& 0xFF) <<< 8) ||| (b.getD 3 0 &&& 0xFF)) % 2 ^ 32)
    exact ⟨r2, t2, h2, Recv.quiet_trans hq hq2⟩

theorem read_error_total (s : Recv) :
    ∃ r t, read_error s = some (r, t) ∧ s.quiet t := by
  obtain ⟨r, b, t, h, hq, _, _⟩ := read_buffer_total s [0] 1
  simp only [read_error, h]
  by_cases h1 : r ≤ 0
  · rw [if_pos h1]; exact ⟨_, _, rfl, hq⟩
  · rw [if_neg h1]; exact ⟨_, _, rfl, hq⟩

/-- The loop of `input_handler` is left within `pending.length + 1`
iterations, with the token and the end of the stream as they were. -/
theorem input_loop_total (username : List Nat) :
    ∀ (fuel : Nat) (s : Recv), s.pending.length + 1 ≤ fuel →
      ∃ t, input_loop username fuel s = some t ∧ t.cancelled = s.cancelled ∧
        t.error = s.error := by
  intro fuel
  induction fuel with
  | zero => intro s h; omega
  | succ fuel ih =>
    intro s hf
    obtain ⟨rt, s1, h1, hq1, hlt⟩ := read_response_type_total s
    rw [input_loop]
    simp only [h1]
    by_cases hu : rt = UNKNOWN
    · rw [if_pos hu]; exact ⟨_, rfl, hq1.2.1, hq1.1⟩
    rw [if_neg hu]
    have hlt1 := hlt hu
    have hlog : ∀ (t : Recv) (e : Ev), s1.quiet t →
        ∃ t2, input_loop username fuel (t.log e) = some t2 ∧ t2.cancelled = s.cancelled ∧
          t2.error = s.error := by
      intro t e hq
      obtain ⟨t2, h2, hc, he⟩ := ih (t.log e) (by
        have := hq.2.2.2
        simp only [Recv.log, Recv.pending] at this hlt1 hf ⊢
        omega)
      exact ⟨t2, h2, by rw [hc]; exact hq.2.1.trans hq1.2.1, by rw [he]; exact hq.1.trans hq1.1⟩
    by_cases hcs : rt = RESPONSE_CONNECT_SUCCESSFULLY
    · rw [if_pos hcs]
      obtain ⟨r, t, h2, hq2⟩ := read_connected_successfully_total s1
      simp only [h2]
      cases r with
      | none => exact ⟨_, rfl, hq2.2.1.trans hq1.2.1, hq2.1.trans hq1.1⟩
      | some ul => exact hlog t _ hq2
    rw [if_neg hcs]
    by_cases hus : rt = RESPONSE_USER_CONNECTED ∨ rt = RESPONSE_USER_DISCONNECTED
    · rw [if_pos hus]
      obtain ⟨r, t, h2, hq2⟩ := read_user_total s1
      simp only [h2]
      cases r with
      | none => exact ⟨_, rfl, hq2.2.1.trans hq1.2.1, hq2.1.trans hq1.1⟩
      | some user =>
        by_cases huc : rt = RESPONSE_USER_CONNECTED
        · simp only [huc, if_true]; exact hlog t _ hq2
        · simp only [huc, if_false]; exact hlog t _ hq2
    rw [if_neg hus]
    by_cases hm : rt = RESPONSE_MESSAGE
    · rw [if_pos hm]
      obtain ⟨r, t, h2, hq2⟩ := read_user_total s1
      simp only [h2]
      cases r with
      | none => exact ⟨_, rfl, hq2.2.1.trans hq1.2.1, hq2.1.trans hq1.1⟩
      | some user =>
        obtain ⟨r3, t3, h3, hq3⟩ := read_message_total t
        simp only [h3]
        cases r3 with
        | none =>
          exact ⟨_, rfl, hq3.2.1.trans (hq2.2.1.trans hq1.2.1), hq3.1.trans (hq2.1.trans hq1.1)⟩
        | some message => exact hlog t3 _ (Recv.quiet_trans hq2 hq3)
    rw [if_neg hm]
    by_cases he : rt = RESPONSE_ERROR
    · rw [if_pos he]
      obtain ⟨r, t, h2, hq2⟩ := read_error_total s1
      simp only [h2]
      exact ⟨_, rfl, hq2.2.1.trans hq1.2.1, hq2.1.trans hq1.1⟩
    rw [if_neg he]
    obtain ⟨t2, h2, hc, hee⟩ := ih s1 (by omega)
    exact ⟨t2, h2, hc.trans hq1.2.1, hee.trans hq1.1⟩

theorem input_handler_total (username : List Nat) (chunks : List (List Nat))
    (error : Option (List Nat)) (cancelled : Bool) :
    ∃ t, input_handler username chunks error cancelled = some t ∧ t.cancelled = true ∧
      t.trace.getLast? = some .cancel := by
  obtain ⟨t, h, _, _⟩ := input_loop_total username (chunks.flatten.length + 1)
    ⟨chunks, error, [], cancelled⟩ (Nat.le_refl _)
  simp only [input_handler, h]
  exact ⟨_, rfl, rfl, by simp⟩

/-! ## The cancellation token and fatal writes in the sender -/

theorem write_loop_fatal_last (bytes : List Nat) (conn : List WriteResult) :
    ∀ (to_send : Nat) (trace : List Ev) (conn1 : List WriteResult) (trace1 : List Ev),
      write_loop bytes conn to_send trace = .fatal conn1 trace1 →
      trace1.getLast? = some .cancel := by
  induction conn with
  | nil =>
    intro to_send trace conn1 trace1 h
    cases to_send <;> simp [write_loop] at h
  | cons r conn ih =>
    intro to_send trace conn1 trace1 h
    cases to_send with
    | zero => simp [write_loop] at h
    | succ n =>
      cases r with
      | would_block =>
        rw [write_loop] at h
        exact ih _ _ _ _ h
      | failed msg =>
        simp only [write_loop, WriteExit.fatal.injEq] at h
        rw [← h.2]
        simp
      | ok k =>
        by_cases hk : k = 0
        · simp only [write_loop, hk, if_true, WriteExit.fatal.injEq] at h
          rw [← h.2]
          simp
        · simp only [write_loop, hk, if_false] at h
          exact ih _ _ _ _ h

theorem output_loop_cancelled (username : List Nat) :
    ∀ (fuel to_send : Nat) (bytes stdin : List Nat) (conn : List WriteResult) (trace : List Ev)
      (cancelled : Bool),
      ((output_loop username fuel to_send bytes stdin conn trace cancelled).status = .returned →
        (output_loop username fuel to_send bytes stdin conn trace cancelled).cancelled = true ∧
        (output_loop username fuel to_send bytes stdin conn trace cancelled).trace.getLast? =
          some .cancel) ∧
      (cancelled = true →
        (output_loop username fuel to_send bytes stdin conn trace cancelled).cancelled = true) := by
  intro fuel
  induction fuel with
  | zero =>
    intro to_send bytes stdin conn trace cancelled
    simp [output_loop]
  | succ fuel ih =>
    intro to_send bytes stdin conn trace cancelled
    rw [output_loop]
    by_cases h0 : to_send = 0
    · simp only [h0, if_true]
      cases hf : fgets 4096 stdin with
      | none => simp
      | some p =>
        obtain ⟨buffer, stdin1⟩ := p
        simp only
        by_cases hb : cstr buffer = [10]
        · simp [hb]
        · simp only [hb, if_false]
          cases hw : write_loop (message_frame username buffer) conn
              (message_frame username buffer).length (trace ++ [.fgets (some buffer)]) with
          | done conn1 trace1 => exact ih _ _ _ _ _ _
          | fatal conn1 trace1 =>
            simp only [true_and, implies_true, and_true]
            intro _
            exact write_loop_fatal_last _ _ _ _ _ _ hw
          | pending trace1 => simp
    · simp only [h0, if_false]
      cases hw : write_loop bytes conn to_send trace with
      | done conn1 trace1 => exact ih _ _ _ _ _ _
      | fatal conn1 trace1 =>
        simp only [true_and, implies_true, and_true]
        intro _
        exact write_loop_fatal_last _ _ _ _ _ _ hw
      | pending trace1 => simp

theorem write_loop_fatal (bytes : List Nat) (r : WriteResult) (conn : List WriteResult)
    (n : Nat) (trace : List Ev) (hr : is_fatal r = true) :
    write_loop bytes (r :: conn) (n + 1) trace =
      .fatal conn (trace ++ [.write bytes r, fatal_diagnostic r, .cancel]) := by
  cases r with
  | would_block => simp [is_fatal] at hr
  | failed msg => simp [write_loop, fatal_diagnostic]
  | ok k =>
    have hk : k = 0 := by simpa [is_fatal] using hr
    simp [write_loop, hk, fatal_diagnostic]

theorem write_loop_would_block_fatal (bytes : List Nat) (r : WriteResult)
    (conn : List WriteResult) (n k : Nat) (trace : List Ev) (hr : is_fatal r = true) :
    write_loop bytes (List.replicate k .would_block ++ r :: conn) (n + 1) trace =
      .fatal conn (trace ++ List.replicate k (.write bytes .would_block) ++
        [.write bytes r, fatal_diagnostic r, .cancel]) := by
  rw [write_loop_would_block, write_loop_fatal _ _ _ _ _ hr]

/-! ## Cancellation, fatal writes and termination -/

/-- C13: every run of `output_handler` that returns (end of input, bare
newline, zero-byte write, write error) ends with the token set, by a
cancellation that is the last thing it does, and a token that is set at the
start stays set, also in a run that has not returned; every run of
`input_handler` returns with the token set, after a cancellation as its
last event, and the loop of `input_handler` leaves the token as it finds
it. -/
theorem cancellation_on_every_exit (username : List Nat) :
    (∀ (stdin : List Nat) (conn : List WriteResult) (cancelled : Bool),
        ((output_handler username stdin conn cancelled).status = .returned →
          (output_handler username stdin conn cancelled).cancelled = true ∧
          (output_handler username stdin conn cancelled).trace.getLast? = some .cancel) ∧
        (cancelled = true → (output_handler username stdin conn cancelled).cancelled = true))
      ∧ (∀ (chunks : List (List Nat)) (error : Option (List Nat)) (cancelled : Bool),
          ∃ t, input_handler username chunks error cancelled = some t ∧ t.cancelled = true ∧
            t.trace.getLast? = some .cancel)
      ∧ (∀ s : Recv, ∃ t, input_loop username (s.pending.length + 1) s = some t ∧
          t.cancelled = s.cancelled) := by
  refine ⟨?_, ?_, ?_⟩
  · intro stdin conn cancelled
    exact output_loop_cancelled username _ _ _ _ _ _ _
  · intro chunks error cancelled
    exact input_handler_total username chunks error cancelled
  · intro s
    obtain ⟨t, h, hc, _⟩ := input_loop_total username (s.pending.length + 1) s (Nat.le_refl _)
    exact ⟨t, h, hc⟩

theorem cancellation_on_every_exit_witness :
    (output_handler [97] [104, 10] [.ok 4, .ok 0] false).status = .returned ∧
      (output_handler [97] [104, 10] [.ok 4, .ok 0] false).cancelled = true ∧
      (output_handler [97] [104, 10] [.ok 4, .ok 0] false).trace.getLast? = some .cancel :=
  ⟨by decide,
    ((cancellation_on_every_exit [97]).1 [104, 10] [.ok 4, .ok 0] false).1 (by decide)⟩

/-- C15: when a write call returns 0 bytes or fails with an error other than
would-block (after `k` would-block results), the handler prints the
diagnostic, sets the token and returns: the results the connection had left
are untouched (no further write call) and so is the input (no further line is
read), both while the connect frame is being sent and while the frame of a
line is. A would-block result is followed by a write call with the same
bytes and the same amount to send. -/
theorem fatal_write_stops_sender (username : List Nat) :
    (∀ (fuel n k : Nat) (bytes stdin : List Nat) (r : WriteResult) (conn : List WriteResult)
        (trace : List Ev) (cancelled : Bool), is_fatal r = true →
        output_loop username (fuel + 1) (n + 1) bytes stdin
            (List.replicate k .would_block ++ r :: conn) trace cancelled =
          ⟨.returned, stdin, conn,
            trace ++ List.replicate k (.write bytes .would_block) ++
              [.write bytes r, fatal_diagnostic r, .cancel], true⟩)
      ∧ (∀ (fuel k : Nat) (bytes buffer stdin stdin1 : List Nat) (r : WriteResult)
          (conn : List WriteResult) (trace : List Ev) (cancelled : Bool),
          fgets 4096 stdin = some (buffer, stdin1) → cstr buffer ≠ [10] → is_fatal r = true →
          output_loop username (fuel + 1) 0 bytes stdin
              (List.replicate k .would_block ++ r :: conn) trace cancelled =
            ⟨.returned, stdin1, conn,
              trace ++ [.fgets (some buffer)] ++
                List.replicate k (.write (message_frame username buffer) .would_block) ++
                [.write (message_frame username buffer) r, fatal_diagnostic r, .cancel], true⟩)
      ∧ (∀ (k : Nat) (stdin : List Nat) (r : WriteResult) (conn : List WriteResult)
          (cancelled : Bool), is_fatal r = true →
          output_handler username stdin (List.replicate k .would_block ++ r :: conn) cancelled =
            ⟨.returned, stdin, conn,
              List.replicate k (.write (connect_frame username) .would_block) ++
                [.write (connect_frame username) r, fatal_diagnostic r, .cancel], true⟩)
      ∧ (∀ (bytes : List Nat) (conn : List WriteResult) (n : Nat) (trace : List Ev),
          write_loop bytes (.would_block :: conn) (n + 1) trace =
            write_loop bytes conn (n + 1) (trace ++ [.write bytes .would_block])) := by
  have h1 : ∀ (fuel n k : Nat) (bytes stdin : List Nat) (r : WriteResult)
      (conn : List WriteResult) (trace : List Ev) (cancelled : Bool), is_fatal r = true →
      output_loop username (fuel + 1) (n + 1) bytes stdin
          (List.replicate k .would_block ++ r :: conn) trace cancelled =
        ⟨.returned, stdin, conn,
          trace ++ List.replicate k (.write bytes .would_block) ++
            [.write bytes r, fatal_diagnostic r, .cancel], true⟩ := by
    intro fuel n k bytes stdin r conn trace cancelled hr
    rw [output_loop]
    simp only [Nat.succ_ne_zero, if_false]
    rw [write_loop_would_block_fatal _ _ _ _ _ _ hr]
  refine ⟨h1, ?_, ?_, ?_⟩
  · intro fuel k bytes buffer stdin stdin1 r conn trace cancelled hf hb hr
    obtain ⟨n, hn⟩ : ∃ n, (message_frame username buffer).length = n + 1 :=
      ⟨(message_frame username buffer).length - 1,
        by have := List.length_pos.mpr (message_frame_ne_nil username buffer); omega⟩
    rw [output_loop]
    simp only [if_true, hf, hb, if_false]
    rw [hn, write_loop_would_block_fatal _ _ _ _ _ _ hr]
  · intro k stdin r conn cancelled hr
    obtain ⟨n, hn⟩ : ∃ n, (connect_frame username).length = n + 1 :=
      ⟨(connect_frame username).length - 1,
        by have := List.length_pos.mpr (connect_frame_ne_nil username); omega⟩
    rw [output_handler, hn, h1 _ _ _ _ _ _ _ _ _ hr]
    simp
  · intro bytes conn n trace
    rw [write_loop]

theorem fatal_write_stops_sender_witness :
    output_handler [97] [104, 10, 105, 10] (List.replicate 1 .would_block ++ .ok 0 :: [.ok 9])
        false =
      ⟨.returned, [104, 10, 105, 10], [.ok 9],
        List.replicate 1 (.write (connect_frame [97]) .would_block) ++
          [.write (connect_frame [97]) (.ok 0), fatal_diagnostic (.ok 0), .cancel], true⟩ :=
  (fatal_write_stops_sender [97]).2.2.1 1 [104, 10, 105, 10] (.ok 0) [.ok 9] false (by decide)

/-- C20: on every finite stream, chunked in any way and ended by end of input
or by an error, `read_buffer` returns, after at most one read call per byte
to come and one more, and `input_handler` returns; a read call asked for at
least one byte either returns a positive size and takes that many bytes from
the stream, or returns a size that is not positive, which ends the loop of
`read_buffer`. -/
theorem receiver_terminates (username : List Nat) (chunks : List (List Nat))
    (error : Option (List Nat)) (cancelled : Bool) (trace : List Ev) (buff : List Nat)
    (count : Nat) :
    (∃ r b t, read_buffer ⟨chunks, error, trace, cancelled⟩ buff count = some (r, b, t) ∧
        (reads t.trace).length ≤ (reads trace).length + chunks.flatten.length + 1)
      ∧ (∃ t, input_handler username chunks error cancelled = some t)
      ∧ (∀ n, (1 ≤ (g_input_stream_read error chunks buff (n + 1)).1 ∧
            (g_input_stream_read error chunks buff (n + 1)).2.1.flatten.length +
              (g_input_stream_read error chunks buff (n + 1)).1.toNat = chunks.flatten.length) ∨
          (g_input_stream_read error chunks buff (n + 1)).1 ≤ 0) := by
  refine ⟨?_, ?_, ?_⟩
  · obtain ⟨r, b, t, h, _, _, hreads⟩ := read_buffer_total ⟨chunks, error, trace, cancelled⟩ buff count
    refine ⟨r, b, t, h, ?_⟩
    simp only [Recv.pending] at hreads
    omega
  · obtain ⟨t, h, _⟩ := input_handler_total username chunks error cancelled
    exact ⟨t, h⟩
  · intro n
    rcases g_input_stream_read_spec error buff n chunks with
      ⟨_, hread⟩ | ⟨d, chunks1, hd, _, hflat, hread⟩
    · right
      rw [hread]
      cases error <;> simp
    · left
      rw [hread]
      have hpos : 0 < d.length := List.length_pos.mpr hd
      refine ⟨by simp only; omega, ?_⟩
      simp only [hflat, List.length_append, Int.toNat_ofNat]
      omega

/-! ## Reads that find all their bytes, and reads that do not -/

theorem rest_chunks_cons (a : Nat) (l : List Nat) (cs : List (List Nat)) :
    rest_chunks (a :: l) cs = (a :: l) :: cs := by
  simp [rest_chunks]

theorem rest_chunks_flatten (rest : List Nat) (cs : List (List Nat)) :
    (rest_chunks rest cs).flatten = rest ++ cs.flatten := by
  unfold rest_chunks
  by_cases h : rest = []
  · simp [h]
  · simp [h]

/-- When the first chunk holds the `count` bytes asked, `read_buffer` returns
`count` after one read call, with these bytes in the buffer. -/
theorem read_buffer_full (d rest buff : List Nat) (cs : List (List Nat))
    (error : Option (List Nat)) (trace : List Ev) (cancelled : Bool) (hd : d ≠ []) :
    read_buffer ⟨rest_chunks (d ++ rest) cs, error, trace, cancelled⟩ buff d.length =
      some ((d.length : Int), d ++ buff.drop d.length,
        ⟨rest_chunks rest cs, error, trace ++ [.read d.length (d.length : Int)], cancelled⟩) := by
  cases d with
  | nil => exact absurd rfl hd
  | cons a d =>
    rw [List.cons_append, rest_chunks_cons]
    obtain ⟨f, hf⟩ : ∃ f, (Recv.mk ((a :: (d ++ rest)) :: cs) error trace cancelled).pending.length
        = f + 1 := ⟨(d ++ rest ++ cs.flatten).length, by simp [Recv.pending]⟩
    rw [read_buffer, hf, read_buffer_loop]
    have h0 : (0 : Int) ≠ (((a :: d).length : Nat) : Int) := by simp; omega
    rw [if_pos h0]
    have hreq : ((((a :: d).length : Nat) : Int) - 0).toNat = d.length + 1 := by simp
    rw [hreq]
    simp only [g_input_stream_read]
    have htake : (a :: (d ++ rest)).take (d.length + 1) = a :: d := by simp
    have hdrop : (a :: (d ++ rest)).drop (d.length + 1) = rest := by simp
    rw [htake, hdrop]
    have h1 : ¬ ((((a :: d).length : Nat) : Int) < 0) := by omega
    have h2 : ¬ ((((a :: d).length : Nat) : Int) = 0) := by simp; omega
    simp only [h1, h2, if_false]
    rw [read_buffer_loop]
    simp [rest_chunks]

/-- When fewer than `count` bytes are to come, however they are chunked,
`read_buffer` does not return a positive size. -/
theorem read_buffer_loop_short (count : Nat) :
    ∀ (fuel : Nat) (s : Recv) (buff : List Nat) (size r : Int) (b : List Nat) (t : Recv),
      read_buffer_loop count fuel s buff size = some (r, b, t) →
      0 ≤ size → size < count → s.pending.length < count → r ≤ 0 := by
  intro fuel
  induction fuel with
  | zero => intro s buff size r b t h; simp [read_buffer_loop] at h
  | succ fuel ih =>
    intro s buff size r b t h h0 hc hp
    obtain ⟨chunks, error, trace, cancelled⟩ := s
    rw [read_buffer_loop] at h
    have hsz : size ≠ (count : Int) := by omega
    rw [if_pos hsz] at h
    obtain ⟨m, hm⟩ : ∃ m, ((count : Int) - size).toNat = m + 1 :=
      ⟨((count : Int) - size).toNat - 1, by omega⟩
    rw [hm] at h
    simp only [Recv.pending] at hp
    rcases g_input_stream_read_spec error buff m chunks with
      ⟨_, hread⟩ | ⟨d, chunks1, hd, hdlen, hflat, hread⟩
    · simp only [hread] at h
      cases error with
      | none =>
        simp only [Option.isSome_none, Bool.false_eq_true, if_false, lt_self_iff_false, if_true,
          Option.some.injEq, Prod.mk.injEq] at h
        omega
      | some msg =>
        simp only [Option.isSome_some, if_true, Int.reduceNeg, Int.reduceLT, Option.some.injEq,
          Prod.mk.injEq] at h
        omega
    · simp only [hread] at h
      have hpos : 0 < d.length := List.length_pos.mpr hd
      have h1 : ¬ ((d.length : Int) < 0) := by omega
      have h2 : ¬ ((d.length : Int) = 0) := by omega
      simp only [h1, h2, if_false] at h
      have hplen : chunks.flatten.length = d.length + chunks1.flatten.length := by
        rw [hflat, List.length_append]
      exact ih _ _ _ _ _ _ h (by omega) (by omega) (by simp only [Recv.pending]; omega)

theorem read_buffer_short (s : Recv) (buff : List Nat) (count : Nat)
    (h : s.pending.length < count) :
    ∃ r b t, read_buffer s buff count = some (r, b, t) ∧ r ≤ 0 ∧ s.quiet t := by
  obtain ⟨r, b, t, hres, hq, _, _⟩ := read_buffer_total s buff count
  exact ⟨r, b, t, hres,
    read_buffer_loop_short count _ s buff 0 r b t hres (Int.le_refl 0) (by omega) h, hq⟩

/-! ## The decoders on fields that are there, and on fields that are cut short -/

theorem or_shift (a b i : Nat) (h : b < 2 ^ i) : (a <<< i) ||| b = a * 2 ^ i + b := by
  rw [Nat.shiftLeft_eq, Nat.mul_comm, Nat.mul_add_lt_is_or h]

theorem be16_decode (n : Nat) (h : n < 2 ^ 16) :
    ((((n / 2 ^ 8 % 256) &&& 0xFF) <<< 8) ||| ((n % 256) &&& 0xFF)) % 2 ^ 16 = n := by
  rw [and_ff, and_ff, Nat.mod_mod, Nat.mod_mod, or_shift _ _ _ (by omega)]
  omega

theorem be32_decode (n : Nat) (h : n < 2 ^ 32) :
    ((((n / 2 ^ 24 % 256) &&& 0xFF) <<< 24) ||| (((n / 2 ^ 16 % 256) &&& 0xFF) <<< 16) |||
      (((n / 2 ^ 8 % 256) &&& 0xFF) <<< 8) ||| ((n % 256) &&& 0xFF)) % 2 ^ 32 = n := by
  simp only [and_ff, Nat.mod_mod]
  rw [Nat.or_assoc, Nat.or_assoc, or_shift (n / 2 ^ 8 % 256) (n % 256) 8 (by omega)]
  rw [or_shift (n / 2 ^ 16 % 256) _ 16 (by omega)]
  rw [or_shift (n / 2 ^ 24 % 256) _ 24 (by omega)]
  omega

theorem read_block_zero (s : Recv) : read_block s 0 = some (none, s) := by
  simp [read_block, read_buffer, read_buffer_loop]

theorem read_block_full (d rest : List Nat) (cs : List (List Nat))
    (error : Option (List Nat)) (trace : List Ev) (cancelled : Bool) (hd : d ≠ []) :
    read_block ⟨rest_chunks (d ++ rest) cs, error, trace, cancelled⟩ d.length =
      some (some d,
        ⟨rest_chunks rest cs, error, trace ++ [.read d.length (d.length : Int)], cancelled⟩) := by
  have hpos : 0 < d.length := List.length_pos.mpr hd
  have hne : d.length ≠ 0 := by omega
  rw [read_block, read_buffer_full d rest _ cs error trace cancelled hd]
  have hsz : ¬ ((d.length : Int) ≤ 0) := by omega
  simp [hsz, g_new0, hne]

theorem read_block_short (s : Recv) (n : Nat) (h : s.pending.length < n) :
    ∃ t, read_block s n = some (none, t) ∧ s.quiet t := by
  obtain ⟨r, b, t, hres, hr, hq⟩ := read_buffer_short s ((g_new0 n).getD []) n h
  exact ⟨t, by simp [read_block, hres, hr], hq⟩

theorem read_user_full (usr rest : List Nat) (cs : List (List Nat))
    (error : Option (List Nat)) (trace : List Ev) (cancelled : Bool) (hu : usr ≠ []) :
    read_user ⟨rest_chunks (usr.length :: (usr ++ rest)) cs, error, trace, cancelled⟩ =
      some (some usr,
        ⟨rest_chunks rest cs, error,
          trace ++ [.read 1 1, .read usr.length (usr.length : Int)], cancelled⟩) := by
  have h1 := read_buffer_full [usr.length] (usr ++ rest) [0] cs error trace cancelled (by simp)
  simp only [List.singleton_append, List.length_singleton] at h1
  rw [read_user, h1]
  simp only [Nat.cast_one, List.drop_succ_cons, List.drop_nil, List.append_nil]
  rw [if_neg (by omega)]
  have h2 := read_block_full usr rest cs error (trace ++ [.read 1 1]) cancelled hu
  simp only [List.getD_cons_zero]
  rw [h2]
  simp

theorem read_message_full (text rest : List Nat) (cs : List (List Nat))
    (error : Option (List Nat)) (trace : List Ev) (cancelled : Bool) (ht : text ≠ [])
    (hlen : text.length < 2 ^ 32) :
    read_message
        ⟨rest_chunks (message_header text.length ++ (text ++ rest)) cs, error, trace, cancelled⟩ =
      some (some text,
        ⟨rest_chunks rest cs, error,
          trace ++ [.read 4 4, .read text.length (text.length : Int)], cancelled⟩) := by
  have h1 := read_buffer_full (message_header text.length) (text ++ rest) [0, 0, 0, 0] cs error
    trace cancelled (by simp [message_header])
  have hl : (message_header text.length).length = 4 := rfl
  rw [hl] at h1
  rw [read_message, h1]
  simp only [Nat.cast_ofNat]
  rw [if_neg (by omega)]
  have hdec : ((((message_header text.length ++ List.drop 4 [0, 0, 0, 0]).getD 0 0 &&& 0xFF) <<< 24)
      ||| (((message_header text.length ++ List.drop 4 [0, 0, 0, 0]).getD 1 0 &&& 0xFF) <<< 16)
      ||| (((message_header text.length ++ List.drop 4 [0, 0, 0, 0]).getD 2 0 &&& 0xFF) <<< 8)
      ||| ((message_header text.length ++ List.drop 4 [0, 0, 0, 0]).getD 3 0 &&& 0xFF)) % 2 ^ 32
      = text.length := by
    rw [message_header_eq]
    exact be32_decode text.length hlen
  have h2 := read_block_full text rest cs error (trace ++ [Ev.read 4 4]) cancelled ht
  rw [hdec, h2]
  simp

theorem read_connected_successfully_full (list rest : List Nat) (cs : List (List Nat))
    (error : Option (List Nat)) (trace : List Ev) (cancelled : Bool) (hl : list ≠ [])
    (hlen : list.length < 2 ^ 16) :
    read_connected_successfully
        ⟨rest_chunks ([list.length / 2 ^ 8 % 256, list.length % 256] ++ (list ++ rest)) cs,
          error, trace, cancelled⟩ =
      some (some list,
        ⟨rest_chunks rest cs, error,
          trace ++ [.read 2 2, .read list.length (list.length : Int)], cancelled⟩) := by
  have h1 := read_buffer_full [list.length / 2 ^ 8 % 256, list.length % 256] (list ++ rest)
    [0, 0] cs error trace cancelled (by simp)
  have hl2 : [list.length / 2 ^ 8 % 256, list.length % 256].length = 2 := rfl
  rw [hl2] at h1
  rw [read_connected_successfully, h1]
  simp only [Nat.cast_ofNat]
  rw [if_neg (by omega)]
  have hdec : (((([list.length / 2 ^ 8 % 256, list.length % 256] ++ List.drop 2 [0, 0]).getD 0 0
      &&& 0xFF) <<< 8) |||
      (([list.length / 2 ^ 8 % 256, list.length % 256] ++ List.drop 2 [0, 0]).getD 1 0 &&& 0xFF))
      % 2 ^ 16 = list.length := be16_decode list.length hlen
  have h2 := read_block_full list rest cs error (trace ++ [Ev.read 2 2]) cancelled hl
  rw [hdec, h2]
  simp

theorem read_response_type_full (t : Nat) (rest : List Nat) (cs : List (List Nat))
    (error : Option (List Nat)) (trace : List Ev) (cancelled : Bool) (ht : t ≤ 4) :
    read_response_type ⟨rest_chunks (1 :: t :: rest) cs, error, trace, cancelled⟩ =
      some ((t : Int), ⟨rest_chunks rest cs, error, trace ++ [.read 2 2], cancelled⟩) := by
  have h1 := read_buffer_full [1, t] rest [0, 0] cs error trace cancelled (by simp)
  have hl2 : [1, t].length = 2 := rfl
  rw [hl2] at h1
  simp only [List.cons_append, List.nil_append] at h1
  rw [read_response_type, h1]
  simp only [Nat.cast_ofNat]
  rw [if_neg (by omega)]
  have h4 : ¬ t > 4 := by omega
  simp [h4, gint8_of_small t (by omega)]

theorem read_user_zero (rest : List Nat) (cs : List (List Nat))
    (error : Option (List Nat)) (trace : List Ev) (cancelled : Bool) :
    read_user ⟨rest_chunks (0 :: rest) cs, error, trace, cancelled⟩ =
      some (none, ⟨rest_chunks rest cs, error, trace ++ [.read 1 1], cancelled⟩) := by
  have h1 := read_buffer_full [0] rest [0] cs error trace cancelled (by simp)
  simp only [List.singleton_append, List.length_singleton] at h1
  rw [read_user, h1]
  simp only [Nat.cast_one]
  rw [if_neg (by omega)]
  simp [read_block_zero]

theorem read_message_zero (rest : List Nat) (cs : List (List Nat))
    (error : Option (List Nat)) (trace : List Ev) (cancelled : Bool) :
    read_message ⟨rest_chunks (0 :: 0 :: 0 :: 0 :: rest) cs, error, trace, cancelled⟩ =
      some (none, ⟨rest_chunks rest cs, error, trace ++ [.read 4 4], cancelled⟩) := by
  have h1 := read_buffer_full [0, 0, 0, 0] rest [0, 0, 0, 0] cs error trace cancelled (by simp)
  have hl : [0, 0, 0, 0].length = 4 := rfl
  rw [hl] at h1
  simp only [List.cons_append, List.nil_append] at h1
  rw [read_message, h1]
  simp only [Nat.cast_ofNat]
  rw [if_neg (by omega)]
  simp [read_block_zero]

theorem read_error_full (e : Nat) (rest : List Nat) (cs : List (List Nat))
    (error : Option (List Nat)) (trace : List Ev) (cancelled : Bool) :
    read_error ⟨rest_chunks (e :: rest) cs, error, trace, cancelled⟩ =
      some (gint8_of e, ⟨rest_chunks rest cs, error, trace ++ [.read 1 1], cancelled⟩) := by
  have h1 := read_buffer_full [e] rest [0] cs error trace cancelled (by simp)
  simp only [List.singleton_append, List.length_singleton] at h1
  rw [read_error, h1]
  simp only [Nat.cast_one]
  rw [if_neg (by omega)]
  simp

/-- The Connect frame of a username that is not empty is decoded by
`read_response_type` and `read_user` to the type 0 and the username. -/
theorem connect_round_trip (username rest : List Nat) (cs : List (List Nat))
    (error : Option (List Nat)) (trace : List Ev) (cancelled : Bool)
    (hu : ∀ b ∈ username, b ≠ 0) (hne : username ≠ []) (hulen : username.length ≤ 255) :
    read_response_type ⟨rest_chunks (connect_frame username ++ rest) cs, error, trace, cancelled⟩ =
        some (0, ⟨rest_chunks (username.length :: (username ++ rest)) cs, error,
          trace ++ [.read 2 2], cancelled⟩)
      ∧ read_user ⟨rest_chunks (username.length :: (username ++ rest)) cs, error,
          trace ++ [.read 2 2], cancelled⟩ =
        some (some username, ⟨rest_chunks rest cs, error,
          trace ++ [.read 2 2, .read 1 1, .read username.length (username.length : Int)],
          cancelled⟩) := by
  constructor
  · have hf : connect_frame username ++ rest = 1 :: 0 :: (username.length :: (username ++ rest)) := by
      simp only [connect_frame, connect_header, guint8_of]
      rw [cstr_eq_self username hu, strlen_eq_length username hu,
        Nat.mod_eq_of_lt (by omega : username.length < 256)]
      simp
    rw [hf]
    exact read_response_type_full 0 _ cs error trace cancelled (by omega)
  · have := read_user_full username rest cs error (trace ++ [.read 2 2]) cancelled hne
    rw [this]
    simp

/-! ## Round trips and zero lengths -/

/-- C16: the round trip fails for the empty username. Its Connect frame is
01 00 00; `read_response_type` returns the type 0 and `read_user` reads the
length byte 0 and returns `NULL`, not the empty username. For "alice" the
round trip gives back the username, after a length byte 5. -/
theorem connect_round_trip_empty_username :
    connect_frame [] = [1, 0, 0]
      ∧ read_response_type ⟨[connect_frame []], none, [], false⟩ =
          some (0, ⟨[[0]], none, [.read 2 2], false⟩)
      ∧ read_user ⟨[[0]], none, [.read 2 2], false⟩ =
          some (none, ⟨[], none, [.read 2 2, .read 1 1], false⟩)
      ∧ connect_frame [97, 108, 105, 99, 101] = [1, 0, 5, 97, 108, 105, 99, 101]
      ∧ read_user ⟨[[5, 97, 108, 105, 99, 101]], none, [.read 2 2], false⟩ =
          some (some [97, 108, 105, 99, 101],
            ⟨[], none, [.read 2 2, .read 1 1, .read 5 5], false⟩) := by
  decide

/-- C19: when the length byte delivered to `read_user`, or the four length
bytes delivered to `read_message`, are 0, the function returns `NULL` in the
state the length read has left: no further read call is made. A frame of type
2, 3 or 4 with an empty username, and a frame of type 4 with an empty text,
end the loop of `input_handler` with nothing printed, the bytes after the zero
length unread. -/
theorem zero_length_field_fails (username : List Nat) :
    (∀ (s s1 : Recv) (size : Int), read_buffer s [0] 1 = some (size, [0], s1) → 0 < size →
        read_user s = some (none, s1))
      ∧ (∀ (s s1 : Recv) (size : Int),
          read_buffer s [0, 0, 0, 0] 4 = some (size, [0, 0, 0, 0], s1) → 0 < size →
          read_message s = some (none, s1))
      ∧ (∀ (fuel ty : Nat) (rest : List Nat) (cs : List (List Nat)) (error : Option (List Nat))
          (trace : List Ev) (cancelled : Bool), ty = 2 ∨ ty = 3 ∨ ty = 4 →
          input_loop username (fuel + 1)
              ⟨rest_chunks (1 :: ty :: 0 :: rest) cs, error, trace, cancelled⟩ =
            some ⟨rest_chunks rest cs, error, trace ++ [.read 2 2, .read 1 1], cancelled⟩)
      ∧ (∀ (fuel : Nat) (usr rest : List Nat) (cs : List (List Nat))
          (error : Option (List Nat)) (trace : List Ev) (cancelled : Bool), usr ≠ [] →
          input_loop username (fuel + 1)
              ⟨rest_chunks (1 :: 4 :: usr.length :: (usr ++ 0 :: 0 :: 0 :: 0 :: rest)) cs, error,
                trace, cancelled⟩ =
            some ⟨rest_chunks rest cs, error,
              trace ++ [.read 2 2, .read 1 1, .read usr.length (usr.length : Int), .read 4 4],
              cancelled⟩) := by
  refine ⟨?_, ?_, ?_, ?_⟩
  · intro s s1 size h hsize
    rw [read_user, h]
    simp only
    rw [if_neg (by omega)]
    simp [read_block_zero]
  · intro s s1 size h hsize
    rw [read_message, h]
    simp only
    rw [if_neg (by omega)]
    simp [read_block_zero]
  · intro fuel ty rest cs error trace cancelled hty
    rw [input_loop, read_response_type_full ty _ cs error trace cancelled (by omega)]
    have hz := read_user_zero rest cs error (trace ++ [.read 2 2]) cancelled
    rcases hty with h | h | h <;> subst h <;>
      simp [UNKNOWN, RESPONSE_CONNECT_SUCCESSFULLY, RESPONSE_USER_CONNECTED,
        RESPONSE_USER_DISCONNECTED, RESPONSE_MESSAGE, hz]
  · intro fuel usr rest cs error trace cancelled hne
    rw [input_loop, read_response_type_full 4 _ cs error trace cancelled (by omega)]
    have hu := read_user_full usr (0 :: 0 :: 0 :: 0 :: rest) cs error (trace ++ [.read 2 2])
      cancelled hne
    have hz := read_message_zero rest cs error
      (trace ++ [.read 2 2] ++ [.read 1 1, .read usr.length (usr.length : Int)]) cancelled
    simp only [List.append_assoc, List.cons_append, List.nil_append] at hu hz
    simp [UNKNOWN, RESPONSE_CONNECT_SUCCESSFULLY, RESPONSE_USER_CONNECTED,
      RESPONSE_USER_DISCONNECTED, RESPONSE_MESSAGE, hu, hz]

theorem zero_length_field_fails_witness :
    read_user ⟨[[0, 9]], none, [], false⟩ = some (none, ⟨[[9]], none, [.read 1 1], false⟩)
      ∧ input_loop [97] (0 + 1) ⟨rest_chunks (1 :: 2 :: 0 :: [9]) [], none, [], false⟩ =
          some ⟨rest_chunks [9] [], none, [] ++ [.read 2 2, .read 1 1], false⟩ :=
  ⟨(zero_length_field_fails [97]).1 ⟨[[0, 9]], none, [], false⟩
      ⟨[[9]], none, [.read 1 1], false⟩ 1 (by decide) (by decide),
    (zero_length_field_fails [97]).2.2.1 0 2 [9] [] none [] false (Or.inl rfl)⟩

/-! ## Error frames -/

/-- An Error frame whose code byte `e` is there, anywhere in the stream: the
loop of `input_handler` reads the code, prints the one diagnostic of the code
as a `gint8`, and is left, the bytes after the code unread. -/
theorem input_loop_error_frame (username : List Nat) (fuel e : Nat) (rest : List Nat)
    (cs : List (List Nat)) (error : Option (List Nat)) (trace : List Ev) (cancelled : Bool) :
    input_loop username (fuel + 1)
        ⟨rest_chunks (1 :: 0 :: e :: rest) cs, error, trace, cancelled⟩ =
      some ⟨rest_chunks rest cs, error,
        trace ++ [.read 2 2, .read 1 1, error_diagnostic username (gint8_of e)], cancelled⟩ := by
  have h1 := read_response_type_full 0 (e :: rest) cs error trace cancelled (by omega)
  have h2 := read_error_full e rest cs error (trace ++ [.read 2 2]) cancelled
  rw [input_loop]
  simp [h1, h2, UNKNOWN, RESPONSE_CONNECT_SUCCESSFULLY, RESPONSE_USER_CONNECTED,
    RESPONSE_USER_DISCONNECTED, RESPONSE_MESSAGE, RESPONSE_ERROR, Recv.log]

/-- An Error frame whose code byte is not there, anywhere in the stream: the
stream ends after the two header bytes. The loop is left after the line of
`read_buffer` and the diagnostic of the value `UNKNOWN`. -/
theorem input_loop_error_frame_no_code (username : List Nat) (fuel : Nat) (trace : List Ev)
    (cancelled : Bool) :
    input_loop username (fuel + 1) ⟨[[1, 0]], none, trace, cancelled⟩ =
      some ⟨[], none,
        trace ++ [.read 2 2, .read 1 0, .stderr ["Socket closed\n"] [],
          .stderr ["Unsupported error code: ", "\n"] [.int (-1)]], cancelled⟩ := by
  have h1 := read_response_type_full 0 [] [] none trace cancelled (by omega)
  have h2 : read_error ⟨[], none, trace ++ [.read 2 2], cancelled⟩ =
      some (UNKNOWN, ⟨[], none, trace ++ [.read 2 2, .read 1 0, .stderr ["Socket closed\n"] []],
        cancelled⟩) := by
    simp [read_error, read_buffer, read_buffer_loop, g_input_stream_read, Recv.pending]
  simp only [rest_chunks, List.nil_append, if_true, List.cons_ne_nil, if_false] at h1
  rw [input_loop]
  simp [h1, h2, UNKNOWN, RESPONSE_CONNECT_SUCCESSFULLY, RESPONSE_USER_CONNECTED,
    RESPONSE_USER_DISCONNECTED, RESPONSE_MESSAGE, RESPONSE_ERROR, Recv.log, error_diagnostic,
    ERROR_USER_ALREADY_EXISTS, ERROR_SERVER_UNAVAILABLE]

/-- C12: when the code byte of an Error frame cannot be read, two
diagnostics are printed, not one at most. On the stream 01 00 followed by
end of input, `read_buffer` prints "Socket closed", `read_error` returns
`UNKNOWN`, and the error branch of `input_handler`, which does not test for
`UNKNOWN`, prints "Unsupported error code: -1" as well, before the prompt.
The same happens when the Error frame comes after another frame
(01 02 01 'C' 01 00), and with "Error receiving from socket" when the stream
fails. -/
theorem error_frame_without_code_two_diagnostics :
    input_handler [97] [[1, 0]] none false =
        some ⟨[], none,
          [.read 2 2, .read 1 0, .stderr ["Socket closed\n"] [],
           .stderr ["Unsupported error code: ", "\n"] [.int (-1)],
           .stderr ["Print any key to exit..."] [], .cancel], true⟩
      ∧ ((input_handler [97] [[1, 0]] none false).map (fun s => stderrs s.trace)) =
        some [.stderr ["Socket closed\n"] [],
          .stderr ["Unsupported error code: ", "\n"] [.int (-1)],
          .stderr ["Print any key to exit..."] []]
      ∧ ((input_handler [97] [[1, 2, 1, 67, 1, 0]] none false).map (fun s => stderrs s.trace)) =
        some [.stderr ["Socket closed\n"] [],
          .stderr ["Unsupported error code: ", "\n"] [.int (-1)],
          .stderr ["Print any key to exit..."] []]
      ∧ ((input_handler [97] [[1, 0]] (some [120]) false).map (fun s => stderrs s.trace)) =
        some [.stderr ["Error receiving from socket: ", "\n"] [.str [120]],
          .stderr ["Unsupported error code: ", "\n"] [.int (-1)],
          .stderr ["Print any key to exit..."] []] := by
  decide

/-! ## The length byte of the username -/

theorem write_loop_all (P : Ev → Prop) (bytes : List Nat) (hw : ∀ r, P (.write bytes r))
    (hs : ∀ p a, P (.stderr p a)) (hc : P .cancel) (conn : List WriteResult) :
    ∀ (to_send : Nat) (trace : List Ev), (∀ e ∈ trace, P e) →
      ∀ e ∈ (write_loop bytes conn to_send trace).trace, P e := by
  induction conn with
  | nil =>
    intro to_send trace ht
    cases to_send <;> simpa [write_loop, WriteExit.trace] using ht
  | cons r conn ih =>
    intro to_send trace ht
    cases to_send with
    | zero => simpa [write_loop, WriteExit.trace] using ht
    | succ n =>
      have hext : ∀ l : List Ev, (∀ e ∈ l, P e) → ∀ e ∈ trace ++ l, P e := by
        intro l hl e he
        rcases List.mem_append.mp he with h | h
        · exact ht e h
        · exact hl e h
      cases r with
      | would_block =>
        rw [write_loop]
        exact ih _ _ (hext _ (by simpa using hw .would_block))
      | failed msg =>
        simp only [write_loop, WriteExit.trace]
        exact hext _ (by simp [hw, hs, hc])
      | ok k =>
        by_cases hk : k = 0
        · simp only [write_loop, hk, if_true, WriteExit.trace]
          exact hext _ (by simp [hw, hs, hc])
        · simp only [write_loop, hk, if_false]
          exact ih _ _ (hext _ (by simpa using hw (.ok k)))

theorem output_loop_all (P : Ev → Prop) (username : List Nat)
    (hm : ∀ buffer r, P (.write (message_frame username buffer) r))
    (hf : ∀ r, P (.fgets r)) (hs : ∀ p a, P (.stderr p a)) (hc : P .cancel) :
    ∀ (fuel to_send : Nat) (bytes stdin : List Nat) (conn : List WriteResult) (trace : List Ev)
      (cancelled : Bool), (∀ r, P (.write bytes r)) → (∀ e ∈ trace, P e) →
      ∀ e ∈ (output_loop username fuel to_send bytes stdin conn trace cancelled).trace, P e := by
  intro fuel
  induction fuel with
  | zero =>
    intro to_send bytes stdin conn trace cancelled _ ht
    simpa [output_loop] using ht
  | succ fuel ih =>
    intro to_send bytes stdin conn trace cancelled hb ht
    have hext : ∀ l : List Ev, (∀ e ∈ l, P e) → ∀ e ∈ trace ++ l, P e := by
      intro l hl e he
      rcases List.mem_append.mp he with h | h
      · exact ht e h
      · exact hl e h
    rw [output_loop]
    by_cases h0 : to_send = 0
    · simp only [h0, if_true]
      cases hfg : fgets 4096 stdin with
      | none => exact hext _ (by simp [hf, hc])
      | some p =>
        obtain ⟨buffer, stdin1⟩ := p
        simp only
        by_cases hbuf : cstr buffer = [10]
        · simp only [hbuf, if_true]
          exact hext _ (by simp [hf, hc])
        · simp only [hbuf, if_false]
          have hw := write_loop_all P (message_frame username buffer) (hm buffer) hs hc conn
            (message_frame username buffer).length (trace ++ [.fgets (some buffer)])
            (hext _ (by simp [hf]))
          cases hwl : write_loop (message_frame username buffer) conn
              (message_frame username buffer).length (trace ++ [.fgets (some buffer)]) with
          | done conn1 trace1 =>
            rw [hwl] at hw
            exact ih _ _ _ _ _ _ (hm buffer) hw
          | fatal conn1 trace1 => rw [hwl] at hw; exact hw
          | pending trace1 => rw [hwl] at hw; exact hw
    · simp only [h0, if_false]
      have hw := write_loop_all P bytes hb hs hc conn to_send trace ht
      cases hwl : write_loop bytes conn to_send trace with
      | done conn1 trace1 =>
        rw [hwl] at hw
        exact ih _ _ _ _ _ _ hb hw
      | fatal conn1 trace1 => rw [hwl] at hw; exact hw
      | pending trace1 => rw [hwl] at hw; exact hw

theorem connect_frame_length_field (username : List Nat) (hu : ∀ b ∈ username, b ≠ 0)
    (hulen : username.length ≤ 255) (r : WriteResult) :
    length_field_ok username (.write (connect_frame username) r) := by
  simp only [length_field_ok, connect_frame, connect_header, guint8_of]
  rw [cstr_eq_self username hu, strlen_eq_length username hu,
    Nat.mod_eq_of_lt (by omega : username.length < 256)]
  simp

theorem message_frame_length_field (username buffer : List Nat) (hu : ∀ b ∈ username, b ≠ 0)
    (hulen : username.length ≤ 255) (r : WriteResult) :
    length_field_ok username (.write (message_frame username buffer) r) := by
  simp only [length_field_ok, message_frame, connect_header, guint8_of]
  rw [cstr_eq_self username hu, strlen_eq_length username hu,
    Nat.mod_eq_of_lt (by omega : username.length < 256)]
  simp

set_option maxRecDepth 20000 in
/-- C11, as stated, fails: `main` hands over a username of 256 bytes without
looking at its length, and the Connect frame offered has the length byte 0
followed by the 256 bytes. -/
theorem long_username_wraps_length_byte :
    main_username [[115], [104], List.replicate 256 97] = some (List.replicate 256 97)
      ∧ (output_handler (List.replicate 256 97) [] [.ok 259] false).trace =
          [.write ([1, 0, 0] ++ List.replicate 256 97) (.ok 259), .fgets none, .cancel]
      ∧ ¬ length_field_ok (List.replicate 256 97)
          (.write ([1, 0, 0] ++ List.replicate 256 97) (.ok 259)) := by
  decide

/-- C11, amended: for every username of at most 255 bytes (a C string),
whatever the input lines and whatever the connection answers, in every frame
offered to the connection, Connect or Message, the third byte is the number
of bytes of the username and these bytes follow it. -/
theorem length_byte_matches_username (username stdin : List Nat) (conn : List WriteResult)
    (cancelled : Bool) (hu : ∀ b ∈ username, b ≠ 0) (hulen : username.length ≤ 255) :
    ∀ e ∈ (output_handler username stdin conn cancelled).trace, length_field_ok username e := by
  apply output_loop_all (length_field_ok username) username
  · exact fun buffer r => message_frame_length_field username buffer hu hulen r
  · intro r; trivial
  · intro p a; trivial
  · trivial
  · exact fun r => connect_frame_length_field username hu hulen r
  · intro e he; simp at he

theorem length_byte_matches_username_witness :
    length_field_ok [97, 98] (.write [1, 2, 2, 97, 98, 0, 0, 0, 2, 104, 10] (.ok 11)) :=
  length_byte_matches_username [97, 98] [104, 10] [.ok 5, .ok 11] false (by decide) (by decide)
    (.write [1, 2, 2, 97, 98, 0, 0, 0, 2, 104, 10] (.ok 11)) (by decide)

/-! ## The loop of the receiver on whole frames -/

/-- One iteration of the loop on a frame whose bytes are all in the first
chunk: the frame is read, its line is printed and the loop goes on with the
bytes after the frame. -/
theorem input_loop_frame (username : List Nat) (f : Frame) (fuel : Nat) (rest : List Nat)
    (cs : List (List Nat)) (error : Option (List Nat)) (trace : List Ev) (cancelled : Bool)
    (hf : f.well_formed) :
    input_loop username (fuel + 1)
        ⟨rest_chunks (f.encode ++ rest) cs, error, trace, cancelled⟩ =
      input_loop username fuel
        ⟨rest_chunks rest cs, error, trace ++ (f.read_events ++ [f.event]), cancelled⟩ := by
  cases f with
  | connected_successfully list =>
    obtain ⟨hne, hlen⟩ := hf
    have h1 := read_response_type_full 1
      ([list.length / 2 ^ 8 % 256, list.length % 256] ++ (list ++ rest)) cs error trace cancelled
      (by omega)
    have h2 := read_connected_successfully_full list rest cs error (trace ++ [.read 2 2])
      cancelled hne hlen
    simp only [List.append_assoc, List.cons_append, List.nil_append, Nat.reducePow] at h1 h2
    rw [input_loop]
    simp [Frame.encode, Frame.read_events, Frame.event, h1, h2, UNKNOWN,
      RESPONSE_CONNECT_SUCCESSFULLY, Recv.log]
  | user_connected user =>
    obtain ⟨hne, hlen⟩ := hf
    have h1 := read_response_type_full 2 (user.length :: (user ++ rest)) cs error trace cancelled
      (by omega)
    have h2 := read_user_full user rest cs error (trace ++ [.read 2 2]) cancelled hne
    simp only [List.append_assoc, List.cons_append, List.nil_append, Nat.reducePow] at h1 h2
    rw [input_loop]
    simp [Frame.encode, Frame.read_events, Frame.event, h1, h2, UNKNOWN,
      RESPONSE_CONNECT_SUCCESSFULLY, RESPONSE_USER_CONNECTED, Recv.log]
  | user_disconnected user =>
    obtain ⟨hne, hlen⟩ := hf
    have h1 := read_response_type_full 3 (user.length :: (user ++ rest)) cs error trace cancelled
      (by omega)
    have h2 := read_user_full user rest cs error (trace ++ [.read 2 2]) cancelled hne
    simp only [List.append_assoc, List.cons_append, List.nil_append, Nat.reducePow] at h1 h2
    rw [input_loop]
    simp [Frame.encode, Frame.read_events, Frame.event, h1, h2, UNKNOWN,
      RESPONSE_CONNECT_SUCCESSFULLY, RESPONSE_USER_CONNECTED, RESPONSE_USER_DISCONNECTED,
      Recv.log]
  | message user text =>
    obtain ⟨hne, hlen, htne, htlen⟩ := hf
    have h1 := read_response_type_full 4
      (user.length :: (user ++ (message_header text.length ++ (text ++ rest)))) cs error trace
      cancelled (by omega)
    have h2 := read_user_full user (message_header text.length ++ (text ++ rest)) cs error
      (trace ++ [.read 2 2]) cancelled hne
    have h3 := read_message_full text rest cs error
      (trace ++ [.read 2 2] ++ [.read 1 1, .read user.length (user.length : Int)]) cancelled
      htne htlen
    simp only [List.append_assoc, List.cons_append, List.nil_append, message_header_eq,
      Nat.reducePow] at h1 h2 h3
    rw [input_loop]
    simp [Frame.encode, Frame.read_events, Frame.event, h1, h2, h3, UNKNOWN,
      RESPONSE_CONNECT_SUCCESSFULLY, RESPONSE_USER_CONNECTED, RESPONSE_USER_DISCONNECTED,
      RESPONSE_MESSAGE, Recv.log]

/-- The loop on a sequence of frames, all in the first chunk. -/
theorem input_loop_frames (username : List Nat) (cs : List (List Nat))
    (error : Option (List Nat)) (cancelled : Bool) (rest : List Nat) :
    ∀ (frames : List Frame) (fuel : Nat) (trace : List Ev),
      (∀ f ∈ frames, f.well_formed) →
      input_loop username (frames.length + fuel)
          ⟨rest_chunks ((frames.map Frame.encode).flatten ++ rest) cs, error, trace, cancelled⟩ =
        input_loop username fuel
          ⟨rest_chunks rest cs, error,
            trace ++ (frames.map (fun f => f.read_events ++ [f.event])).flatten, cancelled⟩ := by
  intro frames
  induction frames with
  | nil => intro fuel trace _; simp
  | cons f fs ih =>
    intro fuel trace hwf
    have hstep := input_loop_frame username f (fs.length + fuel)
      ((fs.map Frame.encode).flatten ++ rest) cs error trace cancelled
      (hwf f (List.mem_cons_self _ _))
    have hrec := ih fuel (trace ++ (f.read_events ++ [f.event]))
      (fun x hx => hwf x (List.mem_cons_of_mem _ hx))
    simp only [List.map_cons, List.flatten_cons, List.length_cons, List.append_assoc]
    rw [show fs.length + 1 + fuel = fs.length + fuel + 1 by omega]
    rw [hstep, hrec]
    simp

/-! ## The loop of the receiver on a frame that is cut short -/

theorem rest_chunks_pending (data : List Nat) (error : Option (List Nat)) (trace : List Ev)
    (cancelled : Bool) :
    (Recv.mk (rest_chunks data []) error trace cancelled).pending = data := by
  simp [Recv.pending, rest_chunks_flatten]

theorem read_response_type_short (s : Recv) (h : s.pending.length < 2) :
    ∃ t, read_response_type s = some (UNKNOWN, t) ∧ s.quiet t := by
  obtain ⟨r, b, t, hres, hr, hq⟩ := read_buffer_short s [0, 0] 2 h
  exact ⟨t, by simp [read_response_type, hres, hr], hq⟩

theorem read_user_short (s : Recv) (h : s.pending.length < 1) :
    ∃ t, read_user s = some (none, t) ∧ s.quiet t := by
  obtain ⟨r, b, t, hres, hr, hq⟩ := read_buffer_short s [0] 1 h
  exact ⟨t, by simp [read_user, hres, hr], hq⟩

theorem read_message_short (s : Recv) (h : s.pending.length < 4) :
    ∃ t, read_message s = some (none, t) ∧ s.quiet t := by
  obtain ⟨r, b, t, hres, hr, hq⟩ := read_buffer_short s [0, 0, 0, 0] 4 h
  exact ⟨t, by simp [read_message, hres, hr], hq⟩

theorem read_connected_successfully_short (s : Recv) (h : s.pending.length < 2) :
    ∃ t, read_connected_successfully s = some (none, t) ∧ s.quiet t := by
  obtain ⟨r, b, t, hres, hr, hq⟩ := read_buffer_short s [0, 0] 2 h
  exact ⟨t, by simp [read_connected_successfully, hres, hr], hq⟩

/-- A length byte and a field that is cut short: `read_user` returns `NULL`. -/
theorem read_user_truncated (usr : List Nat) (j : Nat) (error : Option (List Nat))
    (trace : List Ev) (cancelled : Bool) (hj : j < usr.length + 1) :
    ∃ t, read_user ⟨rest_chunks ((usr.length :: usr).take j) [], error, trace, cancelled⟩ =
        some (none, t) ∧ stdouts t.trace = stdouts trace ∧ t.cancelled = cancelled := by
  cases j with
  | zero =>
    obtain ⟨t, h, hq⟩ := read_user_short ⟨rest_chunks [] [], error, trace, cancelled⟩
      (by rw [rest_chunks_pending]; simp)
    exact ⟨t, h, hq.2.2.1, hq.2.1⟩
  | succ j =>
    have h1 := read_buffer_full [usr.length] (usr.take j) [0] [] error trace cancelled (by simp)
    simp only [List.singleton_append, List.length_singleton] at h1
    obtain ⟨t, h2, hq⟩ := read_block_short
      ⟨rest_chunks (usr.take j) [], error, trace ++ [.read 1 1], cancelled⟩ usr.length
      (by rw [rest_chunks_pending, List.length_take]; omega)
    refine ⟨t, ?_, ?_, hq.2.1⟩
    · rw [List.take_succ_cons, read_user, h1]
      simp only [Nat.cast_one]
      rw [if_neg (by omega)]
      simpa using h2
    · rw [hq.2.2.1]
      simp [stdouts_append, stdouts]

theorem read_message_truncated (text : List Nat) (j : Nat) (error : Option (List Nat))
    (trace : List Ev) (cancelled : Bool) (hj : j < 4 + text.length)
    (hlen : text.length < 2 ^ 32) :
    ∃ t, read_message
          ⟨rest_chunks ((message_header text.length ++ text).take j) [], error, trace, cancelled⟩ =
        some (none, t) ∧ stdouts t.trace = stdouts trace ∧ t.cancelled = cancelled := by
  by_cases h4 : j < 4
  · obtain ⟨t, h, hq⟩ := read_message_short
      ⟨rest_chunks ((message_header text.length ++ text).take j) [], error, trace, cancelled⟩
      (by rw [rest_chunks_pending, List.length_take]; omega)
    exact ⟨t, h, hq.2.2.1, hq.2.1⟩
  · have hl : (message_header text.length).length = 4 := rfl
    have htake : (message_header text.length ++ text).take j =
        message_header text.length ++ text.take (j - 4) := by
      rw [List.take_append_eq_append_take, hl, List.take_of_length_le (by omega)]
    have h1 := read_buffer_full (message_header text.length) (text.take (j - 4)) [0, 0, 0, 0] []
      error trace cancelled (by simp [message_header])
    rw [hl] at h1
    obtain ⟨t, h2, hq⟩ := read_block_short
      ⟨rest_chunks (text.take (j - 4)) [], error, trace ++ [.read 4 4], cancelled⟩ text.length
      (by rw [rest_chunks_pending, List.length_take]; omega)
    have hdec : ((((message_header text.length ++ List.drop 4 [0, 0, 0, 0]).getD 0 0 &&& 0xFF) <<< 24)
        ||| (((message_header text.length ++ List.drop 4 [0, 0, 0, 0]).getD 1 0 &&& 0xFF) <<< 16)
        ||| (((message_header text.length ++ List.drop 4 [0, 0, 0, 0]).getD 2 0 &&& 0xFF) <<< 8)
        ||| ((message_header text.length ++ List.drop 4 [0, 0, 0, 0]).getD 3 0 &&& 0xFF)) % 2 ^ 32
        = text.length := by
      rw [message_header_eq]
      exact be32_decode text.length hlen
    refine ⟨t, ?_, ?_, hq.2.1⟩
    · rw [htake, read_message, h1]
      simp only [Nat.cast_ofNat]
      rw [if_neg (by omega), hdec]
      exact h2
    · rw [hq.2.2.1]
      simp [stdouts_append, stdouts]

theorem read_connected_successfully_truncated (list : List Nat) (j : Nat)
    (error : Option (List Nat)) (trace : List Ev) (cancelled : Bool) (hj : j < 2 + list.length)
    (hlen : list.length < 2 ^ 16) :
    ∃ t, read_connected_successfully
          ⟨rest_chunks (([list.length / 2 ^ 8 % 256, list.length % 256] ++ list).take j) [], error,
            trace, cancelled⟩ =
        some (none, t) ∧ stdouts t.trace = stdouts trace ∧ t.cancelled = cancelled := by
  by_cases h2 : j < 2
  · obtain ⟨t, h, hq⟩ := read_connected_successfully_short
      ⟨rest_chunks (([list.length / 2 ^ 8 % 256, list.length % 256] ++ list).take j) [], error,
        trace, cancelled⟩
      (by rw [rest_chunks_pending, List.length_take]; omega)
    exact ⟨t, h, hq.2.2.1, hq.2.1⟩
  · have hl : [list.length / 2 ^ 8 % 256, list.length % 256].length = 2 := rfl
    have htake : ([list.length / 2 ^ 8 % 256, list.length % 256] ++ list).take j =
        [list.length / 2 ^ 8 % 256, list.length % 256] ++ list.take (j - 2) := by
      rw [List.take_append_eq_append_take, hl, List.take_of_length_le (by rw [hl]; omega)]
    have h1 := read_buffer_full [list.length / 2 ^ 8 % 256, list.length % 256]
      (list.take (j - 2)) [0, 0] [] error trace cancelled (by simp)
    rw [hl] at h1
    obtain ⟨t, h3, hq⟩ := read_block_short
      ⟨rest_chunks (list.take (j - 2)) [], error, trace ++ [.read 2 2], cancelled⟩ list.length
      (by rw [rest_chunks_pending, List.length_take]; omega)
    have hdec : (((([list.length / 2 ^ 8 % 256, list.length % 256] ++ List.drop 2 [0, 0]).getD 0 0
        &&& 0xFF) <<< 8) |||
        (([list.length / 2 ^ 8 % 256, list.length % 256] ++ List.drop 2 [0, 0]).getD 1 0 &&& 0xFF))
        % 2 ^ 16 = list.length := be16_decode list.length hlen
    refine ⟨t, ?_, ?_, hq.2.1⟩
    · rw [htake, read_connected_successfully, h1]
      simp only [Nat.cast_ofNat]
      rw [if_neg (by omega), hdec]
      exact h3
    · rw [hq.2.2.1]
      simp [stdouts_append, stdouts]

theorem input_loop_header_short (username : List Nat) (fuel : Nat) (s : Recv)
    (h : s.pending.length < 2) :
    ∃ t, input_loop username (fuel + 1) s = some t ∧ stdouts t.trace = stdouts s.trace ∧
      t.cancelled = s.cancelled := by
  obtain ⟨t, h1, hq⟩ := read_response_type_short s h
  exact ⟨t, by rw [input_loop]; simp [h1], hq.2.2.1, hq.2.1⟩

theorem input_loop_user_truncated (username : List Nat) (fuel ty j : Nat) (usr : List Nat)
    (error : Option (List Nat)) (trace : List Ev) (cancelled : Bool)
    (hty : ty = 2 ∨ ty = 3) (hj : j < usr.length + 1) :
    ∃ t, input_loop username (fuel + 1)
          ⟨rest_chunks (1 :: ty :: (usr.length :: usr).take j) [], error, trace, cancelled⟩ =
        some t ∧ stdouts t.trace = stdouts trace ∧ t.cancelled = cancelled := by
  have h1 := read_response_type_full ty ((usr.length :: usr).take j) [] error trace cancelled
    (by omega)
  obtain ⟨t, h2, hs, hc⟩ := read_user_truncated usr j error (trace ++ [.read 2 2]) cancelled hj
  refine ⟨t, ?_, ?_, hc⟩
  · rw [input_loop, h1]
    rcases hty with h | h <;> subst h <;>
      simp [UNKNOWN, RESPONSE_CONNECT_SUCCESSFULLY, RESPONSE_USER_CONNECTED,
        RESPONSE_USER_DISCONNECTED, h2]
  · rw [hs]
    simp [stdouts_append, stdouts]

theorem input_loop_list_truncated (username : List Nat) (fuel j : Nat) (list : List Nat)
    (error : Option (List Nat)) (trace : List Ev) (cancelled : Bool)
    (hj : j < 2 + list.length) (hlen : list.length < 2 ^ 16) :
    ∃ t, input_loop username (fuel + 1)
          ⟨rest_chunks
            (1 :: 1 :: ([list.length / 2 ^ 8 % 256, list.length % 256] ++ list).take j) [],
            error, trace, cancelled⟩ =
        some t ∧ stdouts t.trace = stdouts trace ∧ t.cancelled = cancelled := by
  have h1 := read_response_type_full 1
    (([list.length / 2 ^ 8 % 256, list.length % 256] ++ list).take j) [] error trace cancelled
    (by omega)
  obtain ⟨t, h2, hs, hc⟩ := read_connected_successfully_truncated list j error
    (trace ++ [.read 2 2]) cancelled hj hlen
  refine ⟨t, ?_, ?_, hc⟩
  · rw [input_loop, h1]
    simp only [Nat.reducePow, List.cons_append, List.nil_append] at h2
    simp [UNKNOWN, RESPONSE_CONNECT_SUCCESSFULLY, h2]
  · rw [hs]
    simp [stdouts_append, stdouts]

theorem input_loop_message_truncated (username : List Nat) (fuel j : Nat) (usr text : List Nat)
    (error : Option (List Nat)) (trace : List Ev) (cancelled : Bool)
    (hne : usr ≠ []) (hj : j < 1 + usr.length + (4 + text.length))
    (hlen : text.length < 2 ^ 32) :
    ∃ t, input_loop username (fuel + 1)
          ⟨rest_chunks
            (1 :: 4 :: ((usr.length :: usr) ++ (message_header text.length ++ text)).take j) [],
            error, trace, cancelled⟩ =
        some t ∧ stdouts t.trace = stdouts trace ∧ t.cancelled = cancelled := by
  have h1 := read_response_type_full 4
    (((usr.length :: usr) ++ (message_header text.length ++ text)).take j) [] error trace
    cancelled (by omega)
  by_cases hju : j < usr.length + 1
  · have htake : ((usr.length :: usr) ++ (message_header text.length ++ text)).take j =
        (usr.length :: usr).take j := by
      rw [List.take_append_eq_append_take]
      have : j - (usr.length :: usr).length = 0 := by simp; omega
      rw [this]
      simp
    obtain ⟨t, h2, hs, hc⟩ := read_user_truncated usr j error (trace ++ [.read 2 2]) cancelled hju
    refine ⟨t, ?_, ?_, hc⟩
    · rw [input_loop, h1, htake]
      simp [UNKNOWN, RESPONSE_CONNECT_SUCCESSFULLY, RESPONSE_USER_CONNECTED,
        RESPONSE_USER_DISCONNECTED, RESPONSE_MESSAGE, h2]
    · rw [hs]
      simp [stdouts_append, stdouts]
  · have htake : ((usr.length :: usr) ++ (message_header text.length ++ text)).take j =
        usr.length :: (usr ++ (message_header text.length ++ text).take (j - (usr.length + 1))) := by
      rw [List.take_append_eq_append_take, List.take_of_length_le (by simp; omega)]
      simp
    have h2 := read_user_full usr ((message_header text.length ++ text).take (j - (usr.length + 1)))
      [] error (trace ++ [.read 2 2]) cancelled hne
    obtain ⟨t, h3, hs, hc⟩ := read_message_truncated text (j - (usr.length + 1)) error
      (trace ++ [.read 2 2] ++ [.read 1 1, .read usr.length (usr.length : Int)]) cancelled
      (by omega) hlen
    refine ⟨t, ?_, ?_, hc⟩
    · rw [input_loop, h1, htake]
      simp only [List.append_assoc, List.cons_append, List.nil_append] at h2 h3
      simp [UNKNOWN, RESPONSE_CONNECT_SUCCESSFULLY, RESPONSE_USER_CONNECTED,
        RESPONSE_USER_DISCONNECTED, RESPONSE_MESSAGE, h2, h3]
    · rw [hs]
      simp [stdouts_append, stdouts]

/-- One iteration of the loop on a strict prefix of a frame, followed by the
end of the stream: the loop is left and nothing is printed on the normal
output. -/
theorem input_loop_truncated (username : List Nat) (g : Frame) (k fuel : Nat)
    (error : Option (List Nat)) (trace : List Ev) (cancelled : Bool)
    (hg : g.well_formed) (hk : k < g.encode.length) :
    ∃ t, input_loop username (fuel + 1)
          ⟨rest_chunks (g.encode.take k) [], error, trace, cancelled⟩ =
        some t ∧ stdouts t.trace = stdouts trace ∧ t.cancelled = cancelled := by
  by_cases h2 : k < 2
  · exact input_loop_header_short username fuel _
      (by rw [rest_chunks_pending, List.length_take]; omega)
  · obtain ⟨j, rfl⟩ : ∃ j, k = j + 2 := ⟨k - 2, by omega⟩
    cases g with
    | connected_successfully list =>
      have henc : (Frame.connected_successfully list).encode =
          1 :: 1 :: ([list.length / 2 ^ 8 % 256, list.length % 256] ++ list) := by
        simp [Frame.encode]
      rw [henc] at hk ⊢
      simp only [List.take_succ_cons]
      exact input_loop_list_truncated username fuel j list error trace cancelled
        (by simp at hk; omega) hg.2
    | user_connected user =>
      have henc : (Frame.user_connected user).encode = 1 :: 2 :: (user.length :: user) := by
        simp [Frame.encode]
      rw [henc] at hk ⊢
      simp only [List.take_succ_cons]
      exact input_loop_user_truncated username fuel 2 j user error trace cancelled (Or.inl rfl)
        (by simp at hk; omega)
    | user_disconnected user =>
      have henc : (Frame.user_disconnected user).encode = 1 :: 3 :: (user.length :: user) := by
        simp [Frame.encode]
      rw [henc] at hk ⊢
      simp only [List.take_succ_cons]
      exact input_loop_user_truncated username fuel 3 j user error trace cancelled (Or.inr rfl)
        (by simp at hk; omega)
    | message user text =>
      have henc : (Frame.message user text).encode =
          1 :: 4 :: ((user.length :: user) ++ (message_header text.length ++ text)) := by
        simp [Frame.encode, message_header_eq]
      rw [henc] at hk ⊢
      simp only [List.take_succ_cons]
      exact input_loop_message_truncated username fuel j user text error trace cancelled hg.1
        (by simp [message_header] at hk; omega) hg.2.2.2

theorem stdouts_frames (frames : List Frame) :
    stdouts ((frames.map (fun f => f.read_events ++ [f.event])).flatten) =
      frames.map Frame.event := by
  induction frames with
  | nil => rfl
  | cons f fs ih =>
    simp only [List.map_cons, List.flatten_cons, stdouts_append, ih]
    cases f <;> simp [stdouts, Frame.read_events, Frame.event]

theorem frames_length_le (frames : List Frame) :
    frames.length ≤ (frames.map Frame.encode).flatten.length := by
  induction frames with
  | nil => simp
  | cons f fs ih =>
    have : 1 ≤ f.encode.length := by cases f <;> simp [Frame.encode]
    simp only [List.map_cons, List.flatten_cons, List.length_append, List.length_cons]
    omega

/-! ## End of input in the middle of a frame, and the lines printed -/

/-- End of input in the middle of a frame when every read call finds the
bytes it asks for: the stream is in one chunk, it holds whole frames (of type
1 to 4, fields not empty) and then a strict prefix of a further frame, cut
anywhere. `input_handler` returns with the token set and its `g_printf` calls
are those of the whole frames, in order: none is made for the frame that is
cut. -/
theorem eof_mid_frame (username : List Nat) (frames : List Frame) (g : Frame) (k : Nat)
    (error : Option (List Nat)) (cancelled : Bool)
    (hwf : ∀ f ∈ frames, f.well_formed) (hg : g.well_formed) (hk : k < g.encode.length) :
    ∃ t, input_handler username
          (rest_chunks ((frames.map Frame.encode).flatten ++ g.encode.take k) []) error cancelled =
        some t ∧ t.cancelled = true ∧ stdouts t.trace = frames.map Frame.event ∧
        t.trace.getLast? = some .cancel := by
  have hlen := frames_length_le frames
  obtain ⟨f, hf⟩ : ∃ f,
      (rest_chunks ((frames.map Frame.encode).flatten ++ g.encode.take k) []).flatten.length + 1 =
        frames.length + (f + 1) :=
    ⟨((frames.map Frame.encode).flatten ++ g.encode.take k).length - frames.length, by
      rw [rest_chunks_flatten]
      simp only [List.flatten_nil, List.append_nil, List.length_append]
      omega⟩
  have hrun := input_loop_frames username [] error cancelled (g.encode.take k) frames (f + 1) []
    hwf
  obtain ⟨t, ht, hs, hc⟩ := input_loop_truncated username g k f error
    ([] ++ (frames.map (fun f => f.read_events ++ [f.event])).flatten) cancelled hg hk
  rw [input_handler, hf, hrun, ht]
  refine ⟨_, rfl, rfl, ?_, by simp⟩
  simp only [stdouts_append, hs, List.nil_append, stdouts_frames]
  simp [stdouts]

/-- C14: the events of the complete frames before the cut are not always
rendered. The stream 01 02 01 'C' 01 (a whole UserConnected frame, then one
header byte, then end of input) is rendered as "Connected user" when the
first read call returns the two header bytes, but when the first read call
returns one byte `read_buffer` never gets its two bytes, reads on to the end
of input, and nothing is rendered for the whole frame. A whole frame with an
empty username (01 02 00) before the cut is not rendered either: the loop
is left at it, the rest of the stream unread. In all these runs nothing is
rendered for the frame that is cut and the token is set. -/
theorem complete_frame_before_cut_not_rendered :
    ((input_handler [97] [[1, 2, 1, 67, 1]] none false).map (fun s => stdouts s.trace)) =
        some [.stdout ["SERVER: Connected user: ", "\n"] [.buf [67]]]
      ∧ input_handler [97] [[1], [2, 1, 67, 1]] none false =
        some ⟨[], none,
          [.read 2 1, .read 1 1, .read 1 1, .read 1 1, .read 1 1, .read 1 0,
           .stderr ["Socket closed\n"] [], .stderr ["Print any key to exit..."] [], .cancel],
          true⟩
      ∧ ((input_handler [97] [[1], [2, 1, 67, 1]] none false).map (fun s => stdouts s.trace)) =
        some []
      ∧ input_handler [97] [[1, 2, 0, 1, 2, 1, 67, 1]] none false =
        some ⟨[[1, 2, 1, 67, 1]], none,
          [.read 2 2, .read 1 1, .stderr ["Print any key to exit..."] [], .cancel], true⟩ := by
  decide

/-- C18: the frames are read one after the other and one `g_printf` call is
made per frame, in order, with the buffers of its fields, but the line
printed is not the bytes of the field: the buffer passed for `%s` is a heap
block of exactly the field, without a terminating zero byte. For the stream
01 02 01 'C' 01 04 01 'D' 00 00 00 01 'E' the calls are made with the blocks
'C', then 'D' and 'E'; what is printed for a block without a zero byte is not
determined by the frame, and a field with a zero byte ('A' 00 'B') is
printed up to that byte only. -/
theorem printed_field_not_terminated :
    input_handler [97] [[1, 2, 1, 67, 1, 4, 1, 68, 0, 0, 0, 1, 69]] none false =
        some ⟨[], none,
          [.read 2 2, .read 1 1, .read 1 1,
           .stdout ["SERVER: Connected user: ", "\n"] [.buf [67]],
           .read 2 2, .read 1 1, .read 1 1, .read 4 4, .read 1 1,
           .stdout ["[", "] ", "\n"] [.buf [68], .buf [69]],
           .read 2 0, .stderr ["Socket closed\n"] [],
           .stderr ["Print any key to exit..."] [], .cancel], true⟩
      ∧ render ["SERVER: Connected user: ", "\n"] [.buf [67]] = none
      ∧ render ["[", "] ", "\n"] [.buf [68], .buf [69]] = none
      ∧ ((input_handler [97] [[1, 2, 3, 65, 0, 66]] none false).map (fun s => stdouts s.trace)) =
          some [.stdout ["SERVER: Connected user: ", "\n"] [.buf [65, 0, 66]]]
      ∧ render ["SERVER: Connected user: ", "\n"] [.buf [65, 0, 66]] =
          some (lit "SERVER: Connected user: A\n") := by
  decide

end Simp
